import Mathlib

/-!
Verification development for the tokimun compiler's lexer and helpers.

The Go implementation scans an immutable source text with a mutable cursor
(`start`, `current`, `line`, `column`).  We embed it as explicit state
passing over a `Lexer` record whose `source` is a `List Char`.  Go loops
become fuel-indexed structural recursions; every call site passes
`source.length + 1` fuel, which the progress lemmas show is sufficient
(each loop iteration advances `current` by at least one, so the zero-fuel
fallback is unreachable from the top-level entry points).

Go's `advance` reads `l.source[l.current]` without a bounds check.  The
only call site that can reach it with the cursor at end of input is the
escape-skipping branch of `Lexer.string`; there the out-of-bounds read is
made explicit as the `.panic` outcome.  All other call sites are guarded
(shown by the invariant lemmas below), so modelling `advance` with a
defaulted read is faithful everywhere else.
-/

/-- The NUL byte Go's `peek` returns at end of input. -/
def nulChar : Char := Char.ofNat 0

/-- The double-quote character. -/
def dquote : Char := Char.ofNat 34

/-- The single-quote character. -/
def squote : Char := Char.ofNat 39

/-- The backslash character. -/
def bslash : Char := Char.ofNat 92

/-- The back-quote character delimiting template strings. -/
def btick : Char := Char.ofNat 96

/-- Token kinds, in the order of the Go `const` block. -/
inductive TokenType where
  | TOKEN_NUMBER
  | TOKEN_STRING
  | TOKEN_TEMPLATE_STRING
  | TOKEN_IDENT
  | TOKEN_TRUE
  | TOKEN_FALSE
  | TOKEN_NIL
  | TOKEN_AND
  | TOKEN_BREAK
  | TOKEN_CONTINUE
  | TOKEN_CASE
  | TOKEN_DEFAULT
  | TOKEN_DO
  | TOKEN_ELSE
  | TOKEN_ELSEIF
  | TOKEN_END
  | TOKEN_FOR
  | TOKEN_FUNCTION
  | TOKEN_GLOBAL
  | TOKEN_GOTO
  | TOKEN_IF
  | TOKEN_IN
  | TOKEN_LOCAL
  | TOKEN_NOT
  | TOKEN_OR
  | TOKEN_REPEAT
  | TOKEN_RETURN
  | TOKEN_SWITCH
  | TOKEN_THEN
  | TOKEN_UNTIL
  | TOKEN_WHILE
  | TOKEN_PLUS
  | TOKEN_MINUS
  | TOKEN_STAR
  | TOKEN_SLASH
  | TOKEN_PERCENT
  | TOKEN_CARET
  | TOKEN_HASH
  | TOKEN_EQ
  | TOKEN_NEQ
  | TOKEN_LT
  | TOKEN_GT
  | TOKEN_LE
  | TOKEN_GE
  | TOKEN_ASSIGN
  | TOKEN_LPAREN
  | TOKEN_RPAREN
  | TOKEN_LBRACE
  | TOKEN_RBRACE
  | TOKEN_LBRACKET
  | TOKEN_RBRACKET
  | TOKEN_SEMICOLON
  | TOKEN_COLON
  | TOKEN_DOUBLECOLON
  | TOKEN_COMMA
  | TOKEN_DOT
  | TOKEN_DOTDOT
  | TOKEN_DOTDOTDOT
  | TOKEN_QUESTION_DOT
  | TOKEN_DOUBLE_QUESTION
  | TOKEN_PLUS_ASSIGN
  | TOKEN_MINUS_ASSIGN
  | TOKEN_STAR_ASSIGN
  | TOKEN_SLASH_ASSIGN
  | TOKEN_PERCENT_ASSIGN
  | TOKEN_DOTDOT_ASSIGN
  | TOKEN_NEWLINE
  | TOKEN_EOF
  | TOKEN_ERROR
deriving DecidableEq

/-- The keyword table (Go `keywords` map), as an association list. -/
def keywords : List (String × TokenType) :=
  [("and", .TOKEN_AND), ("break", .TOKEN_BREAK), ("continue", .TOKEN_CONTINUE),
   ("case", .TOKEN_CASE), ("default", .TOKEN_DEFAULT), ("do", .TOKEN_DO),
   ("else", .TOKEN_ELSE), ("elseif", .TOKEN_ELSEIF), ("end", .TOKEN_END),
   ("false", .TOKEN_FALSE), ("for", .TOKEN_FOR), ("function", .TOKEN_FUNCTION),
   ("global", .TOKEN_GLOBAL), ("goto", .TOKEN_GOTO), ("if", .TOKEN_IF),
   ("in", .TOKEN_IN), ("local", .TOKEN_LOCAL), ("nil", .TOKEN_NIL),
   ("not", .TOKEN_NOT), ("or", .TOKEN_OR), ("repeat", .TOKEN_REPEAT),
   ("return", .TOKEN_RETURN), ("switch", .TOKEN_SWITCH), ("then", .TOKEN_THEN),
   ("true", .TOKEN_TRUE), ("until", .TOKEN_UNTIL), ("while", .TOKEN_WHILE)]

/-- `keywords[text]` lookup. -/
def keywordLookup (s : String) : Option TokenType :=
  (keywords.find? (fun p => p.1 == s)).map (fun p => p.2)

/-- A produced token (Go `Token`). -/
structure Token where
  type : TokenType
  value : String
  line : Nat
  column : Nat
deriving DecidableEq

/-- Lexical errors; each constructor corresponds to one `fmt.Errorf` site,
carrying exactly the data interpolated into the format string. -/
inductive LexErr where
  /-- "line %d: unterminated string" -/
  | unterminatedString (line : Nat)
  /-- "line %d: unterminated multiline string (started at line %d)" -/
  | unterminatedMultiline (line startLine : Nat)
  /-- "line %d: unterminated template string" -/
  | unterminatedTemplate (line : Nat)
  /-- "line %d: unexpected character '%c'" (the `!`, `?` and default cases) -/
  | unexpectedChar (line : Nat) (c : Char)
  /-- "line %d: unexpected character '~' (did you mean '~='?)" -/
  | unexpectedTilde (line : Nat)
deriving DecidableEq

/-- The lexer state (Go `Lexer`). -/
structure Lexer where
  source : List Char
  tokens : List Token
  start : Nat
  current : Nat
  line : Nat
  column : Nat
  startColumn : Nat
deriving DecidableEq

/-- Outcome of a scanning step: success, a lexical error, an out-of-bounds
read (Go runtime panic), or fuel exhaustion (never reached from the
top-level entry points, as proved below). -/
inductive LexOut where
  | ok (l : Lexer)
  | err (e : LexErr)
  | panic
  | diverge
deriving DecidableEq

/-- Result of `Tokenize`. -/
inductive TokResult where
  | ok (tokens : List Token)
  | err (e : LexErr)
  | panic
  | diverge
deriving DecidableEq

/-- Go slice expression `source[a:b]`. -/
def goSlice (s : List Char) (a b : Nat) : List Char :=
  (s.drop a).take (b - a)

def NewLexer (source : String) : Lexer :=
  { source := source.data, tokens := [], start := 0, current := 0,
    line := 1, column := 1, startColumn := 0 }

def Lexer.isAtEnd (l : Lexer) : Bool :=
  decide (l.source.length ≤ l.current)

def Lexer.peek (l : Lexer) : Char :=
  if l.isAtEnd then nulChar else l.source.getD l.current nulChar

def Lexer.peekNext (l : Lexer) : Char :=
  if l.source.length ≤ l.current + 1 then nulChar
  else l.source.getD (l.current + 1) nulChar

/-- Go `advance`; the unguarded `l.source[l.current]` read is defaulted
here and modelled as `.panic` at its one reachable out-of-bounds call
site (in `Lexer.string`). -/
def Lexer.advance (l : Lexer) : Char × Lexer :=
  (l.source.getD l.current nulChar,
   { l with current := l.current + 1, column := l.column + 1 })

/-- Go `match` (renamed: `match` is reserved in Lean). -/
def Lexer.matchChar (l : Lexer) (expected : Char) : Bool × Lexer :=
  if l.isAtEnd then (false, l)
  else if l.source.getD l.current nulChar ≠ expected then (false, l)
  else (true, { l with current := l.current + 1, column := l.column + 1 })

def Lexer.addTokenValue (l : Lexer) (tokenType : TokenType) (value : String) : Lexer :=
  { l with tokens := l.tokens ++ [⟨tokenType, value, l.line, l.startColumn⟩] }

def Lexer.addToken (l : Lexer) (tokenType : TokenType) : Lexer :=
  l.addTokenValue tokenType (String.mk (goSlice l.source l.start l.current))

def isDigit (c : Char) : Bool := decide ('0' ≤ c ∧ c ≤ '9')

def isHexDigit (c : Char) : Bool :=
  isDigit c || decide ('a' ≤ c ∧ c ≤ 'f') || decide ('A' ≤ c ∧ c ≤ 'F')

def isAlpha (c : Char) : Bool :=
  decide ('a' ≤ c ∧ c ≤ 'z') || decide ('A' ≤ c ∧ c ≤ 'Z') || c == '_'

def isAlphaNumeric (c : Char) : Bool := isAlpha c || isDigit c

/-- Generic scanning loop `for p(l.peek()) { l.advance() }`, used for the
digit runs in `number` and the identifier body.  `fuel` bounds the number
of iterations. -/
def Lexer.digitLoop (p : Char → Bool) : Nat → Lexer → Lexer
  | 0, l => l
  | fuel + 1, l =>
    if p l.peek then Lexer.digitLoop p fuel (l.advance).2 else l

/-- `for l.peek() == '=' { l.advance(); n++ }` (counting the `=` run when
opening a long bracket). -/
def Lexer.eqLoop : Nat → Lexer → Nat → Lexer × Nat
  | 0, l, n => (l, n)
  | fuel + 1, l, n =>
    if l.peek = '=' then Lexer.eqLoop fuel (l.advance).2 (n + 1) else (l, n)

/-- `for l.peek() == '=' && matchEq < eqCount { l.advance(); matchEq++ }`
(matching the `=` run when closing a long bracket). -/
def Lexer.eqMatchLoop (eqCount : Nat) : Nat → Lexer → Nat → Lexer × Nat
  | 0, l, m => (l, m)
  | fuel + 1, l, m =>
    if l.peek = '=' ∧ m < eqCount then
      Lexer.eqMatchLoop eqCount fuel (l.advance).2 (m + 1)
    else (l, m)

/-- `for l.peek() != '\n' && !l.isAtEnd() { l.advance() }` (single-line
comment body). -/
def Lexer.slLoop : Nat → Lexer → Lexer
  | 0, l => l
  | fuel + 1, l =>
    if l.peek ≠ '\n' ∧ l.isAtEnd = false then Lexer.slLoop fuel (l.advance).2
    else l

/-- The close-search loop of a multiline comment (`Lexer.comment`, second
half): scan for `]` + `eqCount` `=` + `]`, tracking newlines. -/
def Lexer.commentCloseLoop (eqCount : Nat) : Nat → Lexer → Lexer
  | 0, l => l
  | fuel + 1, l =>
    if l.isAtEnd then l
    else
      let l1 := if l.peek = '\n' then { l with line := l.line + 1, column := 0 } else l
      if l1.peek = ']' then
        let l2 := (l1.advance).2
        let r := Lexer.eqMatchLoop eqCount (l2.source.length + 1) l2 0
        if r.2 = eqCount ∧ r.1.peek = ']' then (r.1.advance).2
        else Lexer.commentCloseLoop eqCount fuel r.1
      else Lexer.commentCloseLoop eqCount fuel (l1.advance).2

/-- Go `comment`: called with `--` consumed. -/
def Lexer.comment (l : Lexer) : Lexer :=
  if l.peek = '[' ∧ (l.peekNext = '[' ∨ l.peekNext = '=') then
    let l1 := (l.advance).2
    let r := Lexer.eqLoop (l1.source.length + 1) l1 0
    if r.1.peek ≠ '[' then
      -- not a valid multiline comment start, treat as single line
      Lexer.slLoop (r.1.source.length + 1) r.1
    else
      Lexer.commentCloseLoop r.2 (((r.1.advance).2).source.length + 1) ((r.1.advance).2)
  else
    Lexer.slLoop (l.source.length + 1) l

/-- The scanning loop of `Lexer.string`; the quote has been consumed and
is at `l.start`.  The second `advance` of the escape-skipping branch is
Go's unguarded `l.source[l.current]` read: at end of input it is an
out-of-bounds access, modelled as `.panic`. -/
def Lexer.stringLoop (quote : Char) : Nat → Lexer → LexOut
  | 0, _ => .diverge
  | fuel + 1, l =>
    if l.peek ≠ quote ∧ l.isAtEnd = false then
      if l.peek = '\n' then .err (.unterminatedString l.line)
      else if l.peek = bslash then
        let l1 := (l.advance).2
        if l1.isAtEnd then .panic
        else Lexer.stringLoop quote fuel ((l1.advance).2)
      else Lexer.stringLoop quote fuel ((l.advance).2)
    else
      if l.isAtEnd then .err (.unterminatedString l.line)
      else
        let l1 := (l.advance).2
        .ok (l1.addTokenValue .TOKEN_STRING (String.mk (goSlice l1.source l1.start l1.current)))

/-- Go `string`. -/
def Lexer.string (l : Lexer) (quote : Char) : LexOut :=
  Lexer.stringLoop quote (l.source.length + 1) l

/-- The close-search loop of `multilineString`: like the comment's, but on
a failed match the cursor is reset to just after the first `]`
(`l.current = markPos + 1`), and on success a `TOKEN_STRING` token is
emitted. -/
def Lexer.mlCloseLoop (eqCount startLine : Nat) : Nat → Lexer → LexOut
  | 0, _ => .diverge
  | fuel + 1, l =>
    if l.isAtEnd then .err (.unterminatedMultiline l.line startLine)
    else
      let l1 := if l.peek = '\n' then { l with line := l.line + 1, column := 0 } else l
      if l1.peek = ']' then
        let markPos := l1.current
        let l2 := (l1.advance).2
        let r := Lexer.eqMatchLoop eqCount (l2.source.length + 1) l2 0
        if r.2 = eqCount ∧ r.1.peek = ']' then
          let l3 := ((r.1.advance).2)
          .ok (l3.addTokenValue .TOKEN_STRING (String.mk (goSlice l3.source l3.start l3.current)))
        else Lexer.mlCloseLoop eqCount startLine fuel { r.1 with current := markPos + 1 }
      else Lexer.mlCloseLoop eqCount startLine fuel ((l1.advance).2)

/-- Go `multilineString`: called with the first `[` consumed. -/
def Lexer.multilineString (l : Lexer) : LexOut :=
  let r := Lexer.eqLoop (l.source.length + 1) l 0
  if r.1.peek ≠ '[' then
    -- not a valid multiline string, just a bracket
    .ok (({ r.1 with current := r.1.start + 1 }).addToken .TOKEN_LBRACKET)
  else
    let l2 := ((r.1.advance).2)
    Lexer.mlCloseLoop r.2 l2.line (l2.source.length + 1) l2

/-- The brace-counting loop inside a `${...}` interpolation span of a
template string.  The builder accumulates every advanced character. -/
def Lexer.braceLoop : Nat → Lexer → List Char → Nat → Lexer × List Char
  | 0, l, b, _ => (l, b)
  | fuel + 1, l, b, depth =>
    if 0 < depth ∧ l.isAtEnd = false then
      let a := l.advance
      let b1 := b ++ [a.1]
      if a.1 = '{' then Lexer.braceLoop fuel a.2 b1 (depth + 1)
      else if a.1 = '}' then Lexer.braceLoop fuel a.2 b1 (depth - 1)
      else if a.1 = '\n' then
        Lexer.braceLoop fuel { a.2 with line := a.2.line + 1, column := 0 } b1 depth
      else Lexer.braceLoop fuel a.2 b1 depth
    else (l, b)

/-- The main scanning loop of `templateString`; the opening back-quote has
been consumed and written to the builder. -/
def Lexer.templateLoop : Nat → Lexer → List Char → Lexer × List Char
  | 0, l, b => (l, b)
  | fuel + 1, l, b =>
    if l.peek ≠ btick ∧ l.isAtEnd = false then
      let l0 := if l.peek = '\n' then { l with line := l.line + 1, column := 0 } else l
      if l0.peek = bslash then
        let a := l0.advance
        if a.2.isAtEnd = false then
          let a2 := a.2.advance
          Lexer.templateLoop fuel a2.2 (b ++ [a.1, a2.1])
        else Lexer.templateLoop fuel a.2 (b ++ [a.1])
      else if l0.peek = '$' ∧ l0.peekNext = '{' then
        let a := l0.advance
        let a2 := a.2.advance
        let r := Lexer.braceLoop (a2.2.source.length + 1) a2.2 (b ++ [a.1, a2.1]) 1
        Lexer.templateLoop fuel r.1 r.2
      else
        let a := l0.advance
        Lexer.templateLoop fuel a.2 (b ++ [a.1])
    else (l, b)

/-- Go `templateString`: called with the opening back-quote consumed. -/
def Lexer.templateString (l : Lexer) : LexOut :=
  let r := Lexer.templateLoop (l.source.length + 1) l [btick]
  if r.1.isAtEnd then .err (.unterminatedTemplate r.1.line)
  else
    let l2 := ((r.1.advance).2)
    .ok (l2.addTokenValue .TOKEN_TEMPLATE_STRING (String.mk (r.2 ++ [btick])))

/-- The shared decimal tail of Go `number` (digits, optional fraction,
optional exponent), reached when the based-literal switch does not fire. -/
def Lexer.numberDecimal (l : Lexer) : Lexer :=
  let l1 := Lexer.digitLoop isDigit (l.source.length + 1) l
  let l2 :=
    if l1.peek = '.' ∧ isDigit l1.peekNext then
      Lexer.digitLoop isDigit (l1.source.length + 1) ((l1.advance).2)
    else l1
  let l3 :=
    if l2.peek = 'e' ∨ l2.peek = 'E' then
      let la := (l2.advance).2
      let lb := if la.peek = '+' ∨ la.peek = '-' then (la.advance).2 else la
      Lexer.digitLoop isDigit (lb.source.length + 1) lb
    else l2
  l3.addToken .TOKEN_NUMBER

/-- Go `number`: called with the first digit (or leading `.`) consumed. -/
def Lexer.number (l : Lexer) : Lexer :=
  if l.source.getD l.start nulChar = '0' ∧ l.current < l.source.length then
    if l.peek = 'x' ∨ l.peek = 'X' then
      (Lexer.digitLoop isHexDigit (l.source.length + 1) ((l.advance).2)).addToken .TOKEN_NUMBER
    else if l.peek = 'b' ∨ l.peek = 'B' then
      (Lexer.digitLoop (fun c => c == '0' || c == '1') (l.source.length + 1)
        ((l.advance).2)).addToken .TOKEN_NUMBER
    else if l.peek = 'o' ∨ l.peek = 'O' then
      (Lexer.digitLoop (fun c => decide ('0' ≤ c ∧ c ≤ '7')) (l.source.length + 1)
        ((l.advance).2)).addToken .TOKEN_NUMBER
    else l.numberDecimal
  else l.numberDecimal

/-- Go `identifier`. -/
def Lexer.identifier (l : Lexer) : Lexer :=
  let l1 := Lexer.digitLoop isAlphaNumeric (l.source.length + 1) l
  let text := String.mk (goSlice l1.source l1.start l1.current)
  l1.addToken ((keywordLookup text).getD .TOKEN_IDENT)

/-- Go `scanToken` (the big `switch`, rendered as an if-chain). -/
def Lexer.scanToken (l0 : Lexer) : LexOut :=
  let a := l0.advance
  let c := a.1
  let l := a.2
  if c = '(' then .ok (l.addToken .TOKEN_LPAREN)
  else if c = ')' then .ok (l.addToken .TOKEN_RPAREN)
  else if c = '{' then .ok (l.addToken .TOKEN_LBRACE)
  else if c = '}' then .ok (l.addToken .TOKEN_RBRACE)
  else if c = '[' then
    if l.peek = '[' ∨ l.peek = '=' then l.multilineString
    else .ok (l.addToken .TOKEN_LBRACKET)
  else if c = ']' then .ok (l.addToken .TOKEN_RBRACKET)
  else if c = ';' then .ok (l.addToken .TOKEN_SEMICOLON)
  else if c = ',' then .ok (l.addToken .TOKEN_COMMA)
  else if c = '#' then .ok (l.addToken .TOKEN_HASH)
  else if c = '^' then .ok (l.addToken .TOKEN_CARET)
  else if c = '+' then
    let m := l.matchChar '='
    .ok (if m.1 then m.2.addToken .TOKEN_PLUS_ASSIGN else l.addToken .TOKEN_PLUS)
  else if c = '-' then
    let m := l.matchChar '-'
    if m.1 then .ok m.2.comment
    else
      let m2 := l.matchChar '='
      .ok (if m2.1 then m2.2.addToken .TOKEN_MINUS_ASSIGN else l.addToken .TOKEN_MINUS)
  else if c = '*' then
    let m := l.matchChar '='
    .ok (if m.1 then m.2.addToken .TOKEN_STAR_ASSIGN else l.addToken .TOKEN_STAR)
  else if c = '/' then
    let m := l.matchChar '='
    .ok (if m.1 then m.2.addToken .TOKEN_SLASH_ASSIGN else l.addToken .TOKEN_SLASH)
  else if c = '%' then
    let m := l.matchChar '='
    .ok (if m.1 then m.2.addToken .TOKEN_PERCENT_ASSIGN else l.addToken .TOKEN_PERCENT)
  else if c = '=' then
    let m := l.matchChar '='
    .ok (if m.1 then m.2.addToken .TOKEN_EQ else l.addToken .TOKEN_ASSIGN)
  else if c = '!' then
    let m := l.matchChar '='
    if m.1 then .ok (m.2.addToken .TOKEN_NEQ)
    else .err (.unexpectedChar l.line '!')
  else if c = '~' then
    let m := l.matchChar '='
    if m.1 then .ok (m.2.addToken .TOKEN_NEQ)
    else .err (.unexpectedTilde l.line)
  else if c = '<' then
    let m := l.matchChar '='
    .ok (if m.1 then m.2.addToken .TOKEN_LE else l.addToken .TOKEN_LT)
  else if c = '>' then
    let m := l.matchChar '='
    .ok (if m.1 then m.2.addToken .TOKEN_GE else l.addToken .TOKEN_GT)
  else if c = ':' then
    let m := l.matchChar ':'
    .ok (if m.1 then m.2.addToken .TOKEN_DOUBLECOLON else l.addToken .TOKEN_COLON)
  else if c = '.' then
    let m := l.matchChar '.'
    if m.1 then
      let m2 := m.2.matchChar '.'
      if m2.1 then .ok (m2.2.addToken .TOKEN_DOTDOTDOT)
      else
        let m3 := m.2.matchChar '='
        .ok (if m3.1 then m3.2.addToken .TOKEN_DOTDOT_ASSIGN else m.2.addToken .TOKEN_DOTDOT)
    else if isDigit l.peek then .ok l.number
    else .ok (l.addToken .TOKEN_DOT)
  else if c = '?' then
    let m := l.matchChar '.'
    if m.1 then .ok (m.2.addToken .TOKEN_QUESTION_DOT)
    else
      let m2 := l.matchChar '?'
      if m2.1 then .ok (m2.2.addToken .TOKEN_DOUBLE_QUESTION)
      else .err (.unexpectedChar l.line '?')
  else if c = dquote ∨ c = squote then l.string c
  else if c = btick then l.templateString
  else if c = '\n' then .ok { l with line := l.line + 1, column := 1 }
  else if c = ' ' ∨ c = '\r' ∨ c = '\t' then .ok l
  else if isDigit c then .ok l.number
  else if isAlpha c then .ok l.identifier
  else .err (.unexpectedChar l.line c)

/-- The `for !l.isAtEnd()` loop of Go `Tokenize`. -/
def Lexer.tokenizeLoop : Nat → Lexer → LexOut
  | 0, _ => .diverge
  | fuel + 1, l =>
    if l.isAtEnd then .ok l
    else
      match Lexer.scanToken { l with start := l.current, startColumn := l.column } with
      | .ok l' => Lexer.tokenizeLoop fuel l'
      | out => out

/-- Go `Tokenize` (on a fresh lexer, as used by `Compile`). -/
def tokenize (source : String) : TokResult :=
  match Lexer.tokenizeLoop (source.data.length + 1) (NewLexer source) with
  | .ok l => .ok (l.tokens ++ [⟨.TOKEN_EOF, "", l.line, l.column⟩])
  | .err e => .err e
  | .panic => .panic
  | .diverge => .diverge

/-! ### `ConvertNumber` and its `strconv` dependencies -/

/-- Go `strconv` digit decoding: `0`-`9`, then letters (either case) from
10 upward; any other character is invalid. -/
def digitVal (c : Char) : Option Nat :=
  if '0' ≤ c ∧ c ≤ '9' then some (c.toNat - '0'.toNat)
  else if 'a' ≤ c ∧ c ≤ 'z' then some (c.toNat - 'a'.toNat + 10)
  else if 'A' ≤ c ∧ c ≤ 'Z' then some (c.toNat - 'A'.toNat + 10)
  else none

/-- Go `strconv.ParseUint` digit accumulation for a fixed base (empty
input is a syntax error; a character that is not a digit below the base
is a syntax error).  The range check happens in `goParseInt`. -/
def parseUintDigits (base : Nat) : List Char → Option Nat
  | [] => none
  | ds => go ds 0
where
  go : List Char → Nat → Option Nat
    | [], n => some n
    | c :: t, n =>
      match digitVal c with
      | none => none
      | some d => if d < base then go t (n * base + d) else none

/-- Go `strconv.ParseInt(s, base, 64)`: optional sign, digit run, and the
64-bit signed range check. -/
def goParseInt (s : List Char) (base : Nat) : Option Int :=
  match s with
  | [] => none
  | c :: rest =>
    if c = '+' then
      match parseUintDigits base rest with
      | none => none
      | some n => if n ≤ 2 ^ 63 - 1 then some (Int.ofNat n) else none
    else if c = '-' then
      match parseUintDigits base rest with
      | none => none
      | some n => if n ≤ 2 ^ 63 then some (-(Int.ofNat n)) else none
    else
      match parseUintDigits base s with
      | none => none
      | some n => if n ≤ 2 ^ 63 - 1 then some (Int.ofNat n) else none

/-- Go `strconv.FormatInt(n, 10)`. -/
def formatInt10 (n : Int) : String :=
  if n < 0 then "-" ++ Nat.repr n.natAbs else Nat.repr n.natAbs

/-- Go `ConvertNumber`: post-process a numeral token's text for Lua. -/
def ConvertNumber (value : String) : Except String String :=
  if value.data.length < 2 then .ok value
  else
    match value.data with
    | c0 :: c1 :: rest =>
      if c0 = '0' then
        if c1 = 'b' ∨ c1 = 'B' then
          match goParseInt rest 2 with
          | none => .error ("invalid binary literal: " ++ value)
          | some n => .ok (formatInt10 n)
        else if c1 = 'o' ∨ c1 = 'O' then
          match goParseInt rest 8 with
          | none => .error ("invalid octal literal: " ++ value)
          | some n => .ok (formatInt10 n)
        else if c1 = 'x' ∨ c1 = 'X' then .ok value
        else .ok value
      else .ok value
    | _ => .ok value

/-- The value of a digit string in a given base (specification-side
reference function for stating `ConvertNumber`'s behaviour). -/
def digitsVal (base : Nat) (ds : List Char) : Nat :=
  ds.foldl (fun n c => n * base + (c.toNat - '0'.toNat)) 0

/-! ### The compile-command loop of `main.go` -/

/-- The per-file loop of `handleCompile` (main.go lines 140-145): each
file is compiled in order; on the first error the command prints it and
calls `os.Exit(1)`.  The per-file compile/IO outcome is abstracted as
`g`; the result is the list of files actually attempted together with
the error that stopped the loop, if any. -/
def handleCompileLoop (g : String → Except String Unit) :
    List String → List String × Option String
  | [] => ([], none)
  | f :: fs =>
    match g f with
    | .ok _ =>
      let r := handleCompileLoop g fs
      (f :: r.1, r.2)
    | .error e => ([f], some e)

/-! ### List helpers used in claim statements -/

/-- The length of the leading `=` run of a character list. -/
def countEq : List Char → Nat
  | [] => 0
  | c :: t => if c = '=' then countEq t + 1 else 0

/-- Whether `needle` occurs as a contiguous subsequence of `hay`. -/
def containsSeq (needle : List Char) : List Char → Bool
  | [] => decide (needle = [])
  | c :: t => needle.isPrefixOf (c :: t) || containsSeq needle t

/-- The closing delimiter of a level-`k` long bracket. -/
def closeSeq (k : Nat) : List Char :=
  ']' :: List.replicate k '=' ++ [']']

/-! ### Cursor primitive lemmas

All reasoning about the scanners goes through the remaining input
`l.source.drop l.current`. -/

theorem isAtEnd_false_iff (l : Lexer) : l.isAtEnd = false ↔ l.current < l.source.length := by
  simp [Lexer.isAtEnd]

theorem isAtEnd_true_iff (l : Lexer) : l.isAtEnd = true ↔ l.source.length ≤ l.current := by
  simp [Lexer.isAtEnd]

theorem getD_eq_headD (s : List Char) (n : Nat) :
    s.getD n nulChar = (s.drop n).headD nulChar := by
  rw [List.getD_eq_getElem?_getD, List.headD_eq_head?_getD, List.head?_drop]

theorem peek_eq (l : Lexer) : l.peek = (l.source.drop l.current).headD nulChar := by
  rw [Lexer.peek]
  by_cases h : l.source.length ≤ l.current
  · rw [if_pos (isAtEnd_true_iff l |>.2 h), List.drop_eq_nil_iff.2 h]; rfl
  · rw [if_neg (by simp [Lexer.isAtEnd]; omega), getD_eq_headD]

theorem peekNext_eq (l : Lexer) :
    l.peekNext = (l.source.drop (l.current + 1)).headD nulChar := by
  rw [Lexer.peekNext]
  by_cases h : l.source.length ≤ l.current + 1
  · rw [if_pos h, List.drop_eq_nil_iff.2 h]; rfl
  · rw [if_neg h, getD_eq_headD]

theorem peek_cons {l : Lexer} {c : Char} {t : List Char}
    (h : l.source.drop l.current = c :: t) : l.peek = c := by
  rw [peek_eq, h]; rfl

theorem peek_nil {l : Lexer} (h : l.source.drop l.current = []) : l.peek = nulChar := by
  rw [peek_eq, h]; rfl

theorem drop_cons_lt {l : Lexer} {c : Char} {t : List Char}
    (h : l.source.drop l.current = c :: t) : l.current < l.source.length := by
  by_contra hc
  rw [List.drop_eq_nil_iff.2 (by omega)] at h
  cases h

theorem drop_succ_of_cons {l : Lexer} {c : Char} {t : List Char}
    (h : l.source.drop l.current = c :: t) : l.source.drop (l.current + 1) = t := by
  have := List.drop_drop 1 l.current l.source
  rw [this.symm, h]; rfl

theorem advance_fst {l : Lexer} {c : Char} {t : List Char}
    (h : l.source.drop l.current = c :: t) : (l.advance).1 = c := by
  rw [Lexer.advance, getD_eq_headD, h]; rfl

theorem advance_snd (l : Lexer) :
    (l.advance).2 = { l with current := l.current + 1, column := l.column + 1 } := rfl

theorem matchChar_eq_of_head {l : Lexer} {c : Char} {t : List Char} (e : Char)
    (h : l.source.drop l.current = c :: t) (hc : c = e) :
    l.matchChar e = (true, { l with current := l.current + 1, column := l.column + 1 }) := by
  have hlt := drop_cons_lt h
  rw [Lexer.matchChar, if_neg (by simp [Lexer.isAtEnd]; omega), if_neg]
  simp only [getD_eq_headD, h, List.headD_cons, hc, ne_eq, not_true_eq_false,
    not_false_eq_true, Decidable.not_not]

theorem matchChar_eq_of_head_ne {l : Lexer} {c : Char} {t : List Char} (e : Char)
    (h : l.source.drop l.current = c :: t) (hc : c ≠ e) :
    l.matchChar e = (false, l) := by
  have hlt := drop_cons_lt h
  rw [Lexer.matchChar, if_neg (by simp [Lexer.isAtEnd]; omega), if_pos]
  simp only [getD_eq_headD, h, List.headD_cons, ne_eq, hc, not_false_eq_true]

theorem matchChar_eq_of_nil {l : Lexer} (e : Char)
    (h : l.source.drop l.current = []) : l.matchChar e = (false, l) := by
  rw [Lexer.matchChar, if_pos]
  rw [isAtEnd_true_iff, ← List.drop_eq_nil_iff, h]

/-! ### goSlice lemmas -/

theorem goSlice_self (s : List Char) (a : Nat) : goSlice s a a = [] := by
  simp [goSlice]

theorem goSlice_step (s : List Char) (a b : Nat) (h1 : a < s.length) (h2 : a + 1 ≤ b) :
    s.getD a nulChar :: goSlice s (a + 1) b = goSlice s a b := by
  rw [goSlice, goSlice, List.drop_eq_getElem_cons h1]
  have : b - a = (b - (a + 1)) + 1 := by omega
  rw [this, List.take_succ_cons, List.getD_eq_getElem?_getD, List.getElem?_eq_getElem h1]
  rfl

theorem goSlice_append (s : List Char) (a m b : Nat) (h1 : a ≤ m) (h2 : m ≤ b) :
    goSlice s a m ++ goSlice s m b = goSlice s a b := by
  rw [goSlice, goSlice, goSlice]
  have hb : b - a = (m - a) + (b - m) := by omega
  rw [hb, List.take_add, List.drop_drop]
  have hm : a + (m - a) = m := by omega
  rw [hm]

/-! ### countEq and containsSeq lemmas -/

theorem countEq_le_length (t : List Char) : countEq t ≤ t.length := by
  induction t with
  | nil => simp [countEq]
  | cons c t ih =>
    rw [countEq]
    split_ifs <;> simp only [List.length_cons] <;> omega

theorem countEq_decomp (t : List Char) :
    ∃ rest, t = List.replicate (countEq t) '=' ++ rest ∧ rest.head? ≠ some '=' := by
  induction t with
  | nil => exact ⟨[], by simp [countEq]⟩
  | cons c t ih =>
    by_cases hc : c = '='
    · obtain ⟨rest, h1, h2⟩ := ih
      refine ⟨rest, ?_, h2⟩
      rw [countEq, if_pos hc, List.replicate_succ, hc]
      simp [← h1]
    · refine ⟨c :: t, ?_, by simp [hc]⟩
      rw [countEq, if_neg hc]
      simp

theorem isPrefixOf_append_cons (a : List Char) (x : Char) (r : List Char) :
    (a ++ [x]).isPrefixOf (a ++ x :: r) = true := by
  induction a with
  | nil => simp [List.isPrefixOf]
  | cons c a ih => simp [List.isPrefixOf, ih]

theorem containsSeq_of_isPrefixOf {needle hay : List Char}
    (h : needle.isPrefixOf hay = true) : containsSeq needle hay = true := by
  cases hay with
  | nil =>
    cases needle with
    | nil => simp [containsSeq]
    | cons c t => simp [List.isPrefixOf] at h
  | cons c t => simp [containsSeq, h]

theorem containsSeq_tail {needle : List Char} {c : Char} {t : List Char}
    (h : containsSeq needle (c :: t) = false) : containsSeq needle t = false := by
  rw [containsSeq, Bool.or_eq_false_iff] at h
  exact h.2

theorem containsSeq_drop {needle : List Char} (d : Nat) :
    ∀ t : List Char, containsSeq needle t = false → containsSeq needle (t.drop d) = false := by
  induction d with
  | zero => intro t h; simpa using h
  | succ d ih =>
    intro t h
    cases t with
    | nil => simpa using h
    | cons c t => exact ih t (containsSeq_tail h)

/-! ### The step invariant

`StepInv l l'` records what every token-preserving scanning loop does to
the state: `source`, `start`, `tokens`, `startColumn` are untouched, the
cursor only moves forward and stays in bounds, the line only grows. -/

structure StepInv (l l' : Lexer) : Prop where
  src : l'.source = l.source
  st : l'.start = l.start
  tks : l'.tokens = l.tokens
  stc : l'.startColumn = l.startColumn
  cur : l.current ≤ l'.current
  ln : l.line ≤ l'.line
  bnd : l.current ≤ l.source.length → l'.current ≤ l.source.length

theorem StepInv.refl (l : Lexer) : StepInv l l :=
  ⟨rfl, rfl, rfl, rfl, Nat.le_refl _, Nat.le_refl _, id⟩

theorem StepInv.comp {l1 l2 l3 : Lexer} (a : StepInv l1 l2) (b : StepInv l2 l3) :
    StepInv l1 l3 := by
  refine ⟨b.src.trans a.src, b.st.trans a.st, b.tks.trans a.tks, b.stc.trans a.stc,
    a.cur.trans b.cur, a.ln.trans b.ln, fun h => ?_⟩
  have h2 := b.bnd (by rw [a.src]; exact a.bnd h)
  rw [a.src] at h2
  exact h2

theorem stepInv_advance {l : Lexer} (h : l.current < l.source.length) :
    StepInv l (l.advance).2 := by
  refine ⟨rfl, rfl, rfl, rfl, ?_, ?_, ?_⟩
  · simp [Lexer.advance]
  · simp [Lexer.advance]
  · intro hle
    simp only [Lexer.advance]
    omega

theorem stepInv_lineBump (l : Lexer) :
    StepInv l { l with line := l.line + 1, column := 0 } := by
  refine ⟨rfl, rfl, rfl, rfl, ?_, ?_, ?_⟩ <;> simp

theorem lt_of_peek_ne {l : Lexer} (h : l.peek ≠ nulChar) :
    l.current < l.source.length := by
  rcases hd : l.source.drop l.current with _ | ⟨c, t⟩
  · exact absurd (peek_nil hd) h
  · exact drop_cons_lt hd

theorem peek_lineBump (l : Lexer) :
    Lexer.peek { l with line := l.line + 1, column := 0 } = l.peek := rfl

/-! ### Loop invariant lemmas -/

theorem digitLoop_inv (p : Char → Bool) (hp : p nulChar = false) :
    ∀ (fuel : Nat) (l : Lexer), StepInv l (Lexer.digitLoop p fuel l) := by
  intro fuel
  induction fuel with
  | zero => intro l; exact StepInv.refl l
  | succ fuel ih =>
    intro l
    rw [Lexer.digitLoop]
    by_cases hpk : p l.peek
    · rw [if_pos hpk]
      have hlt : l.current < l.source.length := by
        refine lt_of_peek_ne fun hnul => ?_
        rw [hnul, hp] at hpk
        exact Bool.false_ne_true hpk
      exact (stepInv_advance hlt).comp (ih _)
    · rw [if_neg hpk]; exact StepInv.refl l

theorem eqLoop_inv :
    ∀ (fuel : Nat) (l : Lexer) (n : Nat), StepInv l (Lexer.eqLoop fuel l n).1 := by
  intro fuel
  induction fuel with
  | zero => intro l n; exact StepInv.refl l
  | succ fuel ih =>
    intro l n
    rw [Lexer.eqLoop]
    by_cases hpk : l.peek = '='
    · rw [if_pos hpk]
      have hlt : l.current < l.source.length :=
        lt_of_peek_ne (by rw [hpk]; decide)
      exact (stepInv_advance hlt).comp (ih _ _)
    · rw [if_neg hpk]; exact StepInv.refl l

theorem eqMatchLoop_inv (k : Nat) :
    ∀ (fuel : Nat) (l : Lexer) (m : Nat), StepInv l (Lexer.eqMatchLoop k fuel l m).1 := by
  intro fuel
  induction fuel with
  | zero => intro l m; exact StepInv.refl l
  | succ fuel ih =>
    intro l m
    rw [Lexer.eqMatchLoop]
    by_cases hpk : l.peek = '=' ∧ m < k
    · rw [if_pos hpk]
      have hlt : l.current < l.source.length :=
        lt_of_peek_ne (by rw [hpk.1]; decide)
      exact (stepInv_advance hlt).comp (ih _ _)
    · rw [if_neg hpk]; exact StepInv.refl l

theorem slLoop_inv :
    ∀ (fuel : Nat) (l : Lexer), StepInv l (Lexer.slLoop fuel l) := by
  intro fuel
  induction fuel with
  | zero => intro l; exact StepInv.refl l
  | succ fuel ih =>
    intro l
    rw [Lexer.slLoop]
    by_cases hc : l.peek ≠ '\n' ∧ l.isAtEnd = false
    · rw [if_pos hc]
      have hlt : l.current < l.source.length := (isAtEnd_false_iff l).1 hc.2
      exact (stepInv_advance hlt).comp (ih _)
    · rw [if_neg hc]; exact StepInv.refl l

theorem commentCloseLoop_inv (k : Nat) :
    ∀ (fuel : Nat) (l : Lexer), StepInv l (Lexer.commentCloseLoop k fuel l) := by
  intro fuel
  induction fuel with
  | zero => intro l; exact StepInv.refl l
  | succ fuel ih =>
    intro l
    rw [Lexer.commentCloseLoop]
    by_cases hend : l.isAtEnd
    · rw [if_pos hend]; exact StepInv.refl l
    · rw [if_neg hend]
      simp only
      set l1 := if l.peek = '\n' then { l with line := l.line + 1, column := 0 } else l with hl1
      have hinv1 : StepInv l l1 := by
        rw [hl1]; split_ifs
        · exact stepInv_lineBump l
        · exact StepInv.refl l
      have hpk1 : l1.peek = l.peek := by
        rw [hl1]; split_ifs
        · exact peek_lineBump l
        · rfl
      by_cases hbr : l1.peek = ']'
      · rw [if_pos hbr]
        have hlt1 : l1.current < l1.source.length :=
          lt_of_peek_ne (by rw [hbr]; decide)
        have hinv2 : StepInv l1 ((l1.advance).2) := stepInv_advance hlt1
        have hinv3 : StepInv ((l1.advance).2)
            (Lexer.eqMatchLoop k (((l1.advance).2).source.length + 1) ((l1.advance).2) 0).1 :=
          eqMatchLoop_inv k _ _ _
        set r := Lexer.eqMatchLoop k (((l1.advance).2).source.length + 1) ((l1.advance).2) 0 with hr
        by_cases hcl : r.2 = k ∧ r.1.peek = ']'
        · rw [if_pos hcl]
          have hlt2 : r.1.current < r.1.source.length :=
            lt_of_peek_ne (by rw [hcl.2]; decide)
          exact hinv1.comp (hinv2.comp (hinv3.comp (stepInv_advance hlt2)))
        · rw [if_neg hcl]
          exact hinv1.comp (hinv2.comp (hinv3.comp (ih _)))
      · rw [if_neg hbr]
        have hlt1 : l1.current < l1.source.length := by
          have : l1.current = l.current ∧ l1.source = l.source := by
            rw [hl1]; split_ifs <;> exact ⟨rfl, rfl⟩
          rw [this.1, this.2]
          exact (isAtEnd_false_iff l).1 (by simpa using hend)
        exact hinv1.comp ((stepInv_advance hlt1).comp (ih _))

theorem comment_inv (l : Lexer) : StepInv l l.comment := by
  rw [Lexer.comment]
  by_cases hc : l.peek = '[' ∧ (l.peekNext = '[' ∨ l.peekNext = '=')
  · rw [if_pos hc]
    have hlt : l.current < l.source.length := lt_of_peek_ne (by rw [hc.1]; decide)
    have hinv1 : StepInv l ((l.advance).2) := stepInv_advance hlt
    have hinv2 : StepInv ((l.advance).2)
        (Lexer.eqLoop (((l.advance).2).source.length + 1) ((l.advance).2) 0).1 :=
      eqLoop_inv _ _ _
    set r := Lexer.eqLoop (((l.advance).2).source.length + 1) ((l.advance).2) 0 with hr
    by_cases hb : r.1.peek ≠ '['
    · rw [if_pos hb]
      exact hinv1.comp (hinv2.comp (slLoop_inv _ _))
    · rw [if_neg hb]
      push_neg at hb
      have hlt2 : r.1.current < r.1.source.length := lt_of_peek_ne (by rw [hb]; decide)
      exact hinv1.comp (hinv2.comp ((stepInv_advance hlt2).comp (commentCloseLoop_inv _ _ _)))
  · rw [if_neg hc]
    exact slLoop_inv _ _

/-! ### Exact characterizations of the simple loops -/

/-- `notNl c` is the single-line-comment continuation test. -/
def notNl (c : Char) : Bool := decide (c ≠ '\n')

theorem eqLoop_exact (k : Nat) :
    ∀ (fuel : Nat) (l : Lexer) (n : Nat) (rest : List Char),
      l.source.drop l.current = List.replicate k '=' ++ rest →
      rest.head? ≠ some '=' → k < fuel →
      Lexer.eqLoop fuel l n =
        ({ l with current := l.current + k, column := l.column + k }, n + k) := by
  induction k with
  | zero =>
    intro fuel l n rest hd hr hf
    obtain ⟨fuel, rfl⟩ : ∃ f, fuel = f + 1 := ⟨fuel - 1, by omega⟩
    rw [Lexer.eqLoop]
    have hpk : l.peek ≠ '=' := by
      rw [peek_eq]
      simp only [List.replicate, List.nil_append] at hd
      rw [hd]
      cases rest with
      | nil => decide
      | cons c t =>
        simp only [List.head?_cons, ne_eq, Option.some.injEq] at hr
        simpa using hr
    rw [if_neg hpk]
    simp
  | succ k ih =>
    intro fuel l n rest hd hr hf
    obtain ⟨fuel, rfl⟩ : ∃ f, fuel = f + 1 := ⟨fuel - 1, by omega⟩
    rw [Lexer.eqLoop]
    rw [List.replicate_succ, List.cons_append] at hd
    rw [if_pos (peek_cons hd)]
    rw [ih fuel (l.advance).2 (n + 1) rest (by rw [advance_snd]; exact drop_succ_of_cons hd)
      hr (by omega)]
    rw [advance_snd]
    simp only [Prod.mk.injEq]
    constructor
    · congr 1 <;> omega
    · omega

theorem eqMatchLoop_exact (k : Nat) :
    ∀ (fuel : Nat) (l : Lexer) (m : Nat),
      l.source.length - l.current < fuel →
      Lexer.eqMatchLoop k fuel l m =
        ({ l with current := l.current + min (countEq (l.source.drop l.current)) (k - m),
                  column := l.column + min (countEq (l.source.drop l.current)) (k - m) },
         m + min (countEq (l.source.drop l.current)) (k - m)) := by
  intro fuel
  induction fuel with
  | zero => intro l m hf; omega
  | succ fuel ih =>
    intro l m hf
    rw [Lexer.eqMatchLoop]
    rcases hd : l.source.drop l.current with _ | ⟨c, t⟩
    · have hpk : l.peek ≠ '=' := by rw [peek_nil hd]; decide
      rw [if_neg (by intro h; exact hpk h.1)]
      simp [countEq]
    · have hpk := peek_cons hd
      by_cases hc : c = '=' ∧ m < k
      · have hcond : l.peek = '=' ∧ m < k := ⟨by rw [hpk]; exact hc.1, hc.2⟩
        rw [if_pos hcond]
        have hlt := drop_cons_lt hd
        have harg : ((l.advance).2).source.length - ((l.advance).2).current < fuel := by
          rw [advance_snd]; simp only; omega
        rw [ih (l.advance).2 (m + 1) harg, advance_snd]
        simp only
        rw [drop_succ_of_cons hd]
        rw [countEq, if_pos hc.1]
        have hkm : k - m = (k - (m + 1)) + 1 := by omega
        rw [hkm, Nat.succ_min_succ]
        simp only [Prod.mk.injEq]
        refine ⟨?_, by omega⟩
        congr 1 <;> omega
      · have hcond : ¬ (l.peek = '=' ∧ m < k) := by
          intro h; exact hc ⟨by rw [← hpk]; exact h.1, h.2⟩
        rw [if_neg hcond]
        rcases Decidable.em (c = '=') with hc2 | hc2
        · have hm : ¬ m < k := fun hml => hc ⟨hc2, hml⟩
          have hkm : k - m = 0 := by omega
          rw [hkm]
          simp
        · rw [countEq, if_neg hc2]
          simp

theorem slLoop_exact :
    ∀ (fuel : Nat) (l : Lexer),
      l.source.length - l.current < fuel →
      Lexer.slLoop fuel l =
        { l with
            current := l.current + ((l.source.drop l.current).takeWhile notNl).length,
            column := l.column + ((l.source.drop l.current).takeWhile notNl).length } := by
  intro fuel
  induction fuel with
  | zero => intro l hf; omega
  | succ fuel ih =>
    intro l hf
    rw [Lexer.slLoop]
    rcases hd : l.source.drop l.current with _ | ⟨c, t⟩
    · have hend : l.isAtEnd = true := by
        rw [isAtEnd_true_iff, ← List.drop_eq_nil_iff, hd]
      rw [if_neg (by intro h; rw [hend] at h; cases h.2)]
      simp
    · have hpk := peek_cons hd
      have hlt := drop_cons_lt hd
      by_cases hc : c = '\n'
      · rw [if_neg (by intro h; exact h.1 (by rw [hpk, hc]))]
        rw [List.takeWhile_cons_of_neg (by simp [notNl, hc])]
        simp
      · rw [if_pos ⟨by rw [hpk]; exact hc, (isAtEnd_false_iff l).2 hlt⟩]
        have harg : ((l.advance).2).source.length - ((l.advance).2).current < fuel := by
          rw [advance_snd]; simp only; omega
        rw [ih (l.advance).2 harg, advance_snd]
        simp only
        rw [drop_succ_of_cons hd, List.takeWhile_cons_of_pos (by simp [notNl, hc])]
        simp only [List.length_cons]
        congr 1 <;> omega

/-! ### Quoted-string scanner lemmas -/

theorem lt_of_drop_cons {s : List Char} {n : Nat} {c : Char} {t : List Char}
    (h : s.drop n = c :: t) : n < s.length := by
  by_contra hc
  rw [List.drop_eq_nil_iff.2 (by omega)] at h
  cases h

theorem drop_succ_of_cons' {s : List Char} {n : Nat} {c : Char} {t : List Char}
    (h : s.drop n = c :: t) : s.drop (n + 1) = t := by
  rw [← List.drop_drop 1 n s, h]
  rfl

theorem lt_succ_of_peekNext_ne {l : Lexer} (h : l.peekNext ≠ nulChar) :
    l.current + 1 < l.source.length := by
  rcases hd : l.source.drop (l.current + 1) with _ | ⟨c, t⟩
  · rw [peekNext_eq, hd] at h
    exact absurd rfl h
  · exact lt_of_drop_cons hd

theorem stringLoop_err (q : Char) :
    ∀ (fuel : Nat) (l : Lexer) (e : LexErr),
      Lexer.stringLoop q fuel l = .err e → e = .unterminatedString l.line := by
  intro fuel
  induction fuel with
  | zero => intro l e h; cases h
  | succ fuel ih =>
    intro l e h
    rw [Lexer.stringLoop] at h
    by_cases h1 : l.peek ≠ q ∧ l.isAtEnd = false
    · rw [if_pos h1] at h
      by_cases h2 : l.peek = '\n'
      · rw [if_pos h2] at h
        exact (LexOut.err.inj h).symm
      · rw [if_neg h2] at h
        by_cases h3 : l.peek = bslash
        · rw [if_pos h3] at h
          by_cases h4 : ((l.advance).2).isAtEnd
          · rw [if_pos h4] at h; cases h
          · rw [if_neg h4] at h
            simpa [Lexer.advance] using ih _ _ h
        · rw [if_neg h3] at h
          simpa [Lexer.advance] using ih _ _ h
    · rw [if_neg h1] at h
      by_cases h5 : l.isAtEnd
      · rw [if_pos h5] at h
        exact (LexOut.err.inj h).symm
      · rw [if_neg h5] at h
        simp only at h
        cases h

theorem stringLoop_ok (q : Char) :
    ∀ (fuel : Nat) (l l' : Lexer),
      Lexer.stringLoop q fuel l = .ok l' →
      l'.source = l.source ∧ l'.start = l.start ∧ l'.line = l.line ∧
      l'.startColumn = l.startColumn ∧ l.current < l'.current ∧
      l'.current ≤ l.source.length ∧
      ∃ v, l'.tokens = l.tokens ++ [⟨.TOKEN_STRING, v, l.line, l.startColumn⟩] := by
  intro fuel
  induction fuel with
  | zero => intro l l' h; cases h
  | succ fuel ih =>
    intro l l' h
    rw [Lexer.stringLoop] at h
    by_cases h1 : l.peek ≠ q ∧ l.isAtEnd = false
    · rw [if_pos h1] at h
      have hlt : l.current < l.source.length := (isAtEnd_false_iff l).1 h1.2
      by_cases h2 : l.peek = '\n'
      · rw [if_pos h2] at h; cases h
      · rw [if_neg h2] at h
        by_cases h3 : l.peek = bslash
        · rw [if_pos h3] at h
          by_cases h4 : ((l.advance).2).isAtEnd
          · rw [if_pos h4] at h; cases h
          · rw [if_neg h4] at h
            have hlt2 : l.current + 1 < l.source.length := by
              have := (isAtEnd_false_iff _).1 (by simpa using h4)
              simpa [Lexer.advance] using this
            obtain ⟨a1, a2, a3, a4, a5, a6, v, a7⟩ := ih _ _ h
            simp only [Lexer.advance] at a1 a2 a3 a4 a5 a6 a7
            exact ⟨a1, a2, a3, a4, by omega, a6, v, a7⟩
        · rw [if_neg h3] at h
          obtain ⟨a1, a2, a3, a4, a5, a6, v, a7⟩ := ih _ _ h
          simp only [Lexer.advance] at a1 a2 a3 a4 a5 a6 a7
          exact ⟨a1, a2, a3, a4, by omega, a6, v, a7⟩
    · rw [if_neg h1] at h
      by_cases h5 : l.isAtEnd
      · rw [if_pos h5] at h; cases h
      · rw [if_neg h5] at h
        have hlt : l.current < l.source.length := (isAtEnd_false_iff l).1 (by simpa using h5)
        simp only at h
        rw [LexOut.ok.injEq] at h
        subst h
        refine ⟨rfl, rfl, rfl, rfl, ?_, ?_, ?_⟩
        · simp [Lexer.addTokenValue, Lexer.advance]
        · simp only [Lexer.addTokenValue, Lexer.advance]
          omega
        · exact ⟨String.mk (goSlice l.source l.start (l.current + 1)),
            by simp [Lexer.addTokenValue, Lexer.advance]⟩

theorem stringLoop_no_diverge (q : Char) :
    ∀ (fuel : Nat) (l : Lexer),
      l.source.length - l.current < fuel →
      Lexer.stringLoop q fuel l ≠ .diverge := by
  intro fuel
  induction fuel with
  | zero => intro l hf; omega
  | succ fuel ih =>
    intro l hf
    rw [Lexer.stringLoop]
    by_cases h1 : l.peek ≠ q ∧ l.isAtEnd = false
    · rw [if_pos h1]
      have hlt : l.current < l.source.length := (isAtEnd_false_iff l).1 h1.2
      by_cases h2 : l.peek = '\n'
      · rw [if_pos h2]; intro hcon; cases hcon
      · rw [if_neg h2]
        by_cases h3 : l.peek = bslash
        · rw [if_pos h3]
          by_cases h4 : ((l.advance).2).isAtEnd
          · rw [if_pos h4]; intro hcon; cases hcon
          · rw [if_neg h4]
            refine ih _ ?_
            simp only [Lexer.advance]
            omega
        · rw [if_neg h3]
          refine ih _ ?_
          simp only [Lexer.advance]
          omega
    · rw [if_neg h1]
      by_cases h5 : l.isAtEnd
      · rw [if_pos h5]; intro hcon; cases hcon
      · rw [if_neg h5]; intro hcon; cases hcon

/-! ### Multiline-string scanner lemmas -/

theorem mlCloseLoop_err (k sl : Nat) :
    ∀ (fuel : Nat) (l : Lexer) (e : LexErr),
      Lexer.mlCloseLoop k sl fuel l = .err e → ∃ m, e = .unterminatedMultiline m sl := by
  intro fuel
  induction fuel with
  | zero => intro l e h; cases h
  | succ fuel ih =>
    intro l e h
    rw [Lexer.mlCloseLoop] at h
    by_cases hend : l.isAtEnd
    · rw [if_pos hend] at h
      exact ⟨l.line, (LexOut.err.inj h).symm⟩
    · rw [if_neg hend] at h
      simp only at h
      set l1 := if l.peek = '\n' then { l with line := l.line + 1, column := 0 } else l with hl1
      by_cases hbr : l1.peek = ']'
      · rw [if_pos hbr] at h
        set r := Lexer.eqMatchLoop k (((l1.advance).2).source.length + 1) ((l1.advance).2) 0 with hr
        by_cases hcl : r.2 = k ∧ r.1.peek = ']'
        · rw [if_pos hcl] at h
          cases h
        · rw [if_neg hcl] at h
          exact ih _ _ h
      · rw [if_neg hbr] at h
        exact ih _ _ h

theorem mlCloseLoop_ok (k sl : Nat) :
    ∀ (fuel : Nat) (l l' : Lexer),
      Lexer.mlCloseLoop k sl fuel l = .ok l' →
      l'.source = l.source ∧ l'.start = l.start ∧ l'.startColumn = l.startColumn ∧
      l.current < l'.current ∧ l'.current ≤ l.source.length ∧
      ∃ t : Token, l'.tokens = l.tokens ++ [t] ∧ t.type = .TOKEN_STRING := by
  intro fuel
  induction fuel with
  | zero => intro l l' h; cases h
  | succ fuel ih =>
    intro l l' h
    rw [Lexer.mlCloseLoop] at h
    by_cases hend : l.isAtEnd
    · rw [if_pos hend] at h; cases h
    · rw [if_neg hend] at h
      simp only at h
      set l1 := if l.peek = '\n' then { l with line := l.line + 1, column := 0 } else l with hl1
      have hf : l1.source = l.source ∧ l1.current = l.current ∧ l1.start = l.start ∧
          l1.tokens = l.tokens ∧ l1.startColumn = l.startColumn := by
        rw [hl1]; split_ifs <;> exact ⟨rfl, rfl, rfl, rfl, rfl⟩
      by_cases hbr : l1.peek = ']'
      · rw [if_pos hbr] at h
        have hlt1 : l1.current < l1.source.length := lt_of_peek_ne (by rw [hbr]; decide)
        set r := Lexer.eqMatchLoop k (((l1.advance).2).source.length + 1) ((l1.advance).2) 0 with hr
        have hinv : StepInv ((l1.advance).2) r.1 := by rw [hr]; exact eqMatchLoop_inv k _ _ _
        have hadv : ((l1.advance).2).source = l1.source ∧ ((l1.advance).2).current = l1.current + 1 ∧
            ((l1.advance).2).start = l1.start ∧ ((l1.advance).2).tokens = l1.tokens ∧
            ((l1.advance).2).startColumn = l1.startColumn := ⟨rfl, rfl, rfl, rfl, rfl⟩
        by_cases hcl : r.2 = k ∧ r.1.peek = ']'
        · rw [if_pos hcl] at h
          have hlt2 : r.1.current < r.1.source.length := lt_of_peek_ne (by rw [hcl.2]; decide)
          rw [LexOut.ok.injEq] at h
          subst h
          have hsrc : r.1.source = l.source := by
            rw [hinv.src, hadv.1, hf.1]
          have hst : r.1.start = l.start := by
            rw [hinv.st, hadv.2.2.1, hf.2.2.1]
          have htk : r.1.tokens = l.tokens := by
            rw [hinv.tks, hadv.2.2.2.1, hf.2.2.2.1]
          have hstc : r.1.startColumn = l.startColumn := by
            rw [hinv.stc, hadv.2.2.2.2, hf.2.2.2.2]
          have hcur : l.current + 1 ≤ r.1.current := by
            have := hinv.cur
            rw [hadv.2.1, hf.2.1] at this
            omega
          refine ⟨?_, ?_, ?_, ?_, ?_, ?_⟩
          · simpa [Lexer.addTokenValue, Lexer.advance] using hsrc
          · simpa [Lexer.addTokenValue, Lexer.advance] using hst
          · simpa [Lexer.addTokenValue, Lexer.advance] using hstc
          · simp only [Lexer.addTokenValue, Lexer.advance]
            omega
          · simp only [Lexer.addTokenValue, Lexer.advance]
            rw [hsrc] at hlt2
            omega
          · refine ⟨⟨.TOKEN_STRING, String.mk (goSlice r.1.source r.1.start (r.1.current + 1)),
              r.1.line, r.1.startColumn⟩, ?_, rfl⟩
            simp only [Lexer.addTokenValue, Lexer.advance]
            rw [htk]
        · rw [if_neg hcl] at h
          obtain ⟨a1, a2, a3, a4, a5, t, a6, a7⟩ := ih _ _ h
          simp only at a1 a2 a3 a4 a5 a6
          have hcur1 : l1.current < l1.source.length := hlt1
          refine ⟨?_, ?_, ?_, ?_, ?_, t, ?_, a7⟩
          · rw [a1, hinv.src, hadv.1, hf.1]
          · rw [a2, hinv.st, hadv.2.2.1, hf.2.2.1]
          · rw [a3, hinv.stc, hadv.2.2.2.2, hf.2.2.2.2]
          · rw [hf.2.1] at hcur1
            omega
          · have hb := a5
            rw [hinv.src, hadv.1, hf.1] at hb
            exact hb
          · rw [a6, hinv.tks, hadv.2.2.2.1, hf.2.2.2.1]
      · rw [if_neg hbr] at h
        have hlt1 : l1.current < l1.source.length := by
          rw [hf.2.1, hf.1]
          exact (isAtEnd_false_iff l).1 (by simpa using hend)
        obtain ⟨a1, a2, a3, a4, a5, t, a6, a7⟩ := ih _ _ h
        simp only [Lexer.advance] at a1 a2 a3 a4 a5 a6
        refine ⟨?_, ?_, ?_, ?_, ?_, t, ?_, a7⟩
        · rw [a1, hf.1]
        · rw [a2, hf.2.2.1]
        · rw [a3, hf.2.2.2.2]
        · rw [hf.2.1] at a4
          omega
        · rw [hf.1] at a5
          rw [hf.2.1, hf.1] at hlt1
          omega
        · rw [a6, hf.2.2.2.1]

theorem mlCloseLoop_no_diverge (k sl : Nat) :
    ∀ (fuel : Nat) (l : Lexer),
      l.source.length - l.current < fuel →
      Lexer.mlCloseLoop k sl fuel l ≠ .diverge := by
  intro fuel
  induction fuel with
  | zero => intro l hfu; omega
  | succ fuel ih =>
    intro l hfu
    rw [Lexer.mlCloseLoop]
    by_cases hend : l.isAtEnd
    · rw [if_pos hend]; intro hcon; cases hcon
    · rw [if_neg hend]
      simp only
      have hlt : l.current < l.source.length := (isAtEnd_false_iff l).1 (by simpa using hend)
      set l1 := if l.peek = '\n' then { l with line := l.line + 1, column := 0 } else l with hl1
      have hf : l1.source = l.source ∧ l1.current = l.current := by
        rw [hl1]; split_ifs <;> exact ⟨rfl, rfl⟩
      by_cases hbr : l1.peek = ']'
      · rw [if_pos hbr]
        set r := Lexer.eqMatchLoop k (((l1.advance).2).source.length + 1) ((l1.advance).2) 0 with hr
        have hinv : StepInv ((l1.advance).2) r.1 := by rw [hr]; exact eqMatchLoop_inv k _ _ _
        by_cases hcl : r.2 = k ∧ r.1.peek = ']'
        · rw [if_pos hcl]; intro hcon; cases hcon
        · rw [if_neg hcl]
          refine ih _ ?_
          simp only
          have hc1 : r.1.source = l.source := by
            rw [hinv.src]; simp only [Lexer.advance]; exact hf.1
          rw [hc1]
          omega
      · rw [if_neg hbr]
        refine ih _ ?_
        simp only [Lexer.advance]
        rw [hf.1, hf.2]
        omega

/-- `eqLoop` at its call-site fuel, on an arbitrary state. -/
theorem eqLoop_run (l : Lexer) (n : Nat) (hc : l.current ≤ l.source.length) :
    Lexer.eqLoop (l.source.length + 1) l n =
      ({ l with current := l.current + countEq (l.source.drop l.current),
                column := l.column + countEq (l.source.drop l.current) },
       n + countEq (l.source.drop l.current)) := by
  obtain ⟨rest, hdec, hrest⟩ := countEq_decomp (l.source.drop l.current)
  refine eqLoop_exact _ _ _ _ _ hdec hrest ?_
  have h1 := countEq_le_length (l.source.drop l.current)
  rw [List.length_drop] at h1
  omega

theorem multilineString_err (l : Lexer) (e : LexErr) (hc : l.current ≤ l.source.length)
    (h : l.multilineString = .err e) : ∃ m, e = .unterminatedMultiline m l.line := by
  rw [Lexer.multilineString] at h
  rw [eqLoop_run l 0 hc] at h
  simp only at h
  set lr : Lexer := ({ l with current := l.current + countEq (l.source.drop l.current), column := l.column + countEq (l.source.drop l.current) } : Lexer) with hlr
  by_cases hbk : lr.peek ≠ '['
  · rw [if_pos hbk] at h
    cases h
  · rw [if_neg hbk] at h
    obtain ⟨m, hm⟩ := mlCloseLoop_err _ _ _ _ _ h
    exact ⟨m, hm⟩

theorem multilineString_ok (l l' : Lexer) (hc : l.current ≤ l.source.length)
    (hs : l.start + 1 ≤ l.current) (h : l.multilineString = .ok l') :
    l'.source = l.source ∧ l'.start = l.start ∧ l'.startColumn = l.startColumn ∧
    l.start < l'.current ∧ l'.current ≤ l.source.length ∧
    ∃ t : Token, l'.tokens = l.tokens ++ [t] ∧
      (t.type = .TOKEN_STRING ∨ t.type = .TOKEN_LBRACKET) := by
  rw [Lexer.multilineString] at h
  rw [eqLoop_run l 0 hc] at h
  simp only at h
  set lr : Lexer := ({ l with current := l.current + countEq (l.source.drop l.current), column := l.column + countEq (l.source.drop l.current) } : Lexer) with hlr
  by_cases hbk : lr.peek ≠ '['
  · rw [if_pos hbk] at h
    rw [LexOut.ok.injEq] at h
    subst h
    refine ⟨rfl, rfl, rfl, ?_, ?_, ?_⟩
    · simp [Lexer.addToken, Lexer.addTokenValue]
    · simp only [Lexer.addToken, Lexer.addTokenValue]
      omega
    · exact ⟨⟨.TOKEN_LBRACKET, String.mk (goSlice l.source l.start (l.start + 1)),
        l.line, l.startColumn⟩, by simp [Lexer.addToken, Lexer.addTokenValue], Or.inr rfl⟩
  · rw [if_neg hbk] at h
    push_neg at hbk
    have hlt : lr.current < lr.source.length := lt_of_peek_ne (by rw [hbk]; decide)
    obtain ⟨a1, a2, a3, a4, a5, t, a6, a7⟩ := mlCloseLoop_ok _ _ _ _ _ h
    simp only [Lexer.advance, hlr] at a1 a2 a3 a4 a5 a6
    refine ⟨a1, a2, a3, by omega, a5, t, a6, Or.inl a7⟩

theorem multilineString_no_diverge (l : Lexer) (hc : l.current ≤ l.source.length) :
    l.multilineString ≠ .diverge := by
  rw [Lexer.multilineString]
  rw [eqLoop_run l 0 hc]
  simp only
  set lr : Lexer := ({ l with current := l.current + countEq (l.source.drop l.current), column := l.column + countEq (l.source.drop l.current) } : Lexer) with hlr
  by_cases hbk : lr.peek ≠ '['
  · rw [if_pos hbk]; intro hcon; cases hcon
  · rw [if_neg hbk]
    push_neg at hbk
    have hlt : lr.current < lr.source.length := lt_of_peek_ne (by rw [hbk]; decide)
    refine mlCloseLoop_no_diverge _ _ _ _ ?_
    simp only [Lexer.advance, hlr]
    simp only [hlr] at hlt
    omega

/-! ### Template-string scanner lemmas -/

theorem builder_step (s b : List Char) (cur rc : Nat)
    (h1 : cur < s.length) (h2 : cur + 1 ≤ rc) :
    (b ++ [s.getD cur nulChar]) ++ goSlice s (cur + 1) rc = b ++ goSlice s cur rc := by
  rw [List.append_assoc]
  congr 1
  rw [List.singleton_append]
  exact goSlice_step s cur rc h1 h2

theorem braceLoop_spec :
    ∀ (fuel : Nat) (l : Lexer) (b : List Char) (d : Nat),
      StepInv l (Lexer.braceLoop fuel l b d).1 ∧
      (Lexer.braceLoop fuel l b d).2 =
        b ++ goSlice l.source l.current (Lexer.braceLoop fuel l b d).1.current := by
  intro fuel
  induction fuel with
  | zero =>
    intro l b d
    refine ⟨StepInv.refl l, ?_⟩
    rw [Lexer.braceLoop]
    rw [goSlice_self]
    simp
  | succ fuel ih =>
    intro l b d
    rw [Lexer.braceLoop]
    by_cases hc : 0 < d ∧ l.isAtEnd = false
    · rw [if_pos hc]
      simp only
      have hlt : l.current < l.source.length := (isAtEnd_false_iff l).1 hc.2
      by_cases h1 : (l.advance).1 = '{'
      · rw [if_pos h1]
        obtain ⟨hi, hb⟩ := ih (l.advance).2 (b ++ [(l.advance).1]) (d + 1)
        refine ⟨(stepInv_advance hlt).comp hi, ?_⟩
        rw [hb]
        exact builder_step l.source b l.current _ hlt hi.cur
      · rw [if_neg h1]
        by_cases h2 : (l.advance).1 = '}'
        · rw [if_pos h2]
          obtain ⟨hi, hb⟩ := ih (l.advance).2 (b ++ [(l.advance).1]) (d - 1)
          refine ⟨(stepInv_advance hlt).comp hi, ?_⟩
          rw [hb]
          exact builder_step l.source b l.current _ hlt hi.cur
        · rw [if_neg h2]
          by_cases h3 : (l.advance).1 = '\n'
          · rw [if_pos h3]
            obtain ⟨hi, hb⟩ :=
              ih { (l.advance).2 with line := ((l.advance).2).line + 1, column := 0 }
                (b ++ [(l.advance).1]) d
            refine ⟨(stepInv_advance hlt).comp ((stepInv_lineBump _).comp hi), ?_⟩
            rw [hb]
            exact builder_step l.source b l.current _ hlt hi.cur
          · rw [if_neg h3]
            obtain ⟨hi, hb⟩ := ih (l.advance).2 (b ++ [(l.advance).1]) d
            refine ⟨(stepInv_advance hlt).comp hi, ?_⟩
            rw [hb]
            exact builder_step l.source b l.current _ hlt hi.cur
    · rw [if_neg hc]
      refine ⟨StepInv.refl l, ?_⟩
      rw [goSlice_self]
      simp

theorem templateLoop_spec :
    ∀ (fuel : Nat) (l : Lexer) (b : List Char),
      StepInv l (Lexer.templateLoop fuel l b).1 ∧
      (Lexer.templateLoop fuel l b).2 =
        b ++ goSlice l.source l.current (Lexer.templateLoop fuel l b).1.current := by
  intro fuel
  induction fuel with
  | zero =>
    intro l b
    refine ⟨StepInv.refl l, ?_⟩
    rw [Lexer.templateLoop, goSlice_self]
    simp
  | succ fuel ih =>
    intro l b
    rw [Lexer.templateLoop]
    by_cases hc : l.peek ≠ btick ∧ l.isAtEnd = false
    · rw [if_pos hc]
      simp only
      have hlt : l.current < l.source.length := (isAtEnd_false_iff l).1 hc.2
      by_cases hnl : l.peek = '\n'
      · rw [if_pos hnl]
        have hBpeek : Lexer.peek { l with line := l.line + 1, column := 0 } = l.peek := rfl
        rw [if_neg (by rw [hBpeek, hnl]; decide)]
        rw [if_neg (by rw [hBpeek, hnl]; intro hx; cases hx.1)]
        obtain ⟨hi, hb⟩ :=
          ih (Lexer.advance { l with line := l.line + 1, column := 0 }).2
            (b ++ [(Lexer.advance { l with line := l.line + 1, column := 0 }).1])
        have hcur := hi.cur
        refine ⟨(stepInv_lineBump l).comp
          ((stepInv_advance (l := { l with line := l.line + 1, column := 0 }) hlt).comp hi), ?_⟩
        rw [hb]
        simp only [Lexer.advance] at hcur ⊢
        rw [← builder_step l.source b l.current _ hlt (by omega)]
      · rw [if_neg hnl]
        by_cases h1 : l.peek = bslash
        · rw [if_pos h1]
          by_cases h2 : ((l.advance).2).isAtEnd = false
          · rw [if_pos h2]
            have hlt2 : l.current + 1 < l.source.length := by
              have := (isAtEnd_false_iff _).1 h2
              simpa [Lexer.advance] using this
            obtain ⟨hi, hb⟩ :=
              ih (((l.advance).2).advance).2
                (b ++ [(l.advance).1, (((l.advance).2).advance).1])
            have hcur := hi.cur
            refine ⟨(stepInv_advance hlt).comp ((stepInv_advance (by
              simpa [Lexer.advance] using hlt2)).comp hi), ?_⟩
            rw [hb]
            simp only [Lexer.advance] at hcur ⊢
            rw [← builder_step l.source b l.current _ hlt (by omega)]
            rw [← builder_step l.source (b ++ [l.source.getD l.current nulChar])
              (l.current + 1) _ hlt2 (by omega)]
            simp
          · rw [if_neg h2]
            obtain ⟨hi, hb⟩ := ih ((l.advance).2) (b ++ [(l.advance).1])
            have hcur := hi.cur
            refine ⟨(stepInv_advance hlt).comp hi, ?_⟩
            rw [hb]
            simp only [Lexer.advance] at hcur ⊢
            rw [← builder_step l.source b l.current _ hlt (by omega)]
        · rw [if_neg h1]
          by_cases h3 : l.peek = '$' ∧ l.peekNext = '{'
          · rw [if_pos h3]
            have hlt2 : l.current + 1 < l.source.length :=
              lt_succ_of_peekNext_ne (by rw [h3.2]; decide)
            obtain ⟨hbrinv, hbrb⟩ :=
              braceLoop_spec (((((l.advance).2).advance).2).source.length + 1)
                ((((l.advance).2).advance).2)
                (b ++ [(l.advance).1, (((l.advance).2).advance).1]) 1
            set r := Lexer.braceLoop (((((l.advance).2).advance).2).source.length + 1)
              ((((l.advance).2).advance).2)
              (b ++ [(l.advance).1, (((l.advance).2).advance).1]) 1 with hr
            obtain ⟨hi, hb⟩ := ih r.1 r.2
            set res := (Lexer.templateLoop fuel r.1 r.2).1 with hres
            have hsrc : r.1.source = l.source := by
              have := hbrinv.src
              simpa [Lexer.advance] using this
            have hrcur := hbrinv.cur
            have hrescur := hi.cur
            refine ⟨(stepInv_advance hlt).comp ((stepInv_advance (by
              simpa [Lexer.advance] using hlt2)).comp (hbrinv.comp hi)), ?_⟩
            rw [hb, hbrb, hsrc]
            simp only [Lexer.advance] at hrcur hrescur ⊢
            rw [List.append_assoc]
            rw [goSlice_append l.source (l.current + 1 + 1) r.1.current res.current hrcur hrescur]
            rw [← builder_step l.source b l.current _ hlt (by omega)]
            rw [← builder_step l.source (b ++ [l.source.getD l.current nulChar])
              (l.current + 1) _ hlt2 (by omega)]
            simp
          · rw [if_neg h3]
            obtain ⟨hi, hb⟩ := ih ((l.advance).2) (b ++ [(l.advance).1])
            have hcur := hi.cur
            refine ⟨(stepInv_advance hlt).comp hi, ?_⟩
            rw [hb]
            simp only [Lexer.advance] at hcur ⊢
            rw [← builder_step l.source b l.current _ hlt (by omega)]
    · rw [if_neg hc]
      refine ⟨StepInv.refl l, ?_⟩
      rw [goSlice_self]
      simp

theorem templateString_err (l : Lexer) (e : LexErr) (h : l.templateString = .err e) :
    ∃ m, e = .unterminatedTemplate m ∧ l.line ≤ m := by
  rw [Lexer.templateString] at h
  simp only at h
  obtain ⟨hi, _⟩ := templateLoop_spec (l.source.length + 1) l [btick]
  set r := Lexer.templateLoop (l.source.length + 1) l [btick] with hr
  by_cases hend : r.1.isAtEnd
  · rw [if_pos hend] at h
    exact ⟨r.1.line, (LexOut.err.inj h).symm, hi.ln⟩
  · rw [if_neg hend] at h
    cases h

theorem templateString_ok (l l' : Lexer) (h : l.templateString = .ok l') :
    l'.source = l.source ∧ l'.start = l.start ∧ l'.startColumn = l.startColumn ∧
    l.current < l'.current ∧ l'.current ≤ l.source.length ∧
    ∃ ln, l'.tokens = l.tokens ++
      [⟨.TOKEN_TEMPLATE_STRING,
        String.mk (btick :: goSlice l.source l.current (l'.current - 1) ++ [btick]),
        ln, l.startColumn⟩] := by
  rw [Lexer.templateString] at h
  simp only at h
  obtain ⟨hi, hb⟩ := templateLoop_spec (l.source.length + 1) l [btick]
  set r := Lexer.templateLoop (l.source.length + 1) l [btick] with hr
  by_cases hend : r.1.isAtEnd
  · rw [if_pos hend] at h
    cases h
  · rw [if_neg hend] at h
    have hlt : r.1.current < r.1.source.length :=
      (isAtEnd_false_iff r.1).1 (by simpa using hend)
    rw [LexOut.ok.injEq] at h
    subst h
    refine ⟨?_, ?_, ?_, ?_, ?_, r.1.line, ?_⟩
    · simpa [Lexer.addTokenValue, Lexer.advance] using hi.src
    · simpa [Lexer.addTokenValue, Lexer.advance] using hi.st
    · simpa [Lexer.addTokenValue, Lexer.advance] using hi.stc
    · have := hi.cur
      simp only [Lexer.addTokenValue, Lexer.advance]
      omega
    · have hsrc := hi.src
      simp only [Lexer.addTokenValue, Lexer.advance]
      rw [hsrc] at hlt
      omega
    · simp only [Lexer.addTokenValue, Lexer.advance, Nat.add_sub_cancel]
      rw [hi.tks, hi.stc, hb]
      simp

theorem templateString_no_diverge (l : Lexer) : l.templateString ≠ .diverge := by
  rw [Lexer.templateString]
  simp only
  split_ifs <;> intro h <;> cases h

theorem string_err (l : Lexer) (q : Char) (e : LexErr) (h : l.string q = .err e) :
    e = .unterminatedString l.line :=
  stringLoop_err q _ l e h

theorem string_ok (l : Lexer) (q : Char) (l' : Lexer) (h : l.string q = .ok l') :
    l'.source = l.source ∧ l'.start = l.start ∧ l'.line = l.line ∧
    l'.startColumn = l.startColumn ∧ l.current < l'.current ∧
    l'.current ≤ l.source.length ∧
    ∃ v, l'.tokens = l.tokens ++ [⟨.TOKEN_STRING, v, l.line, l.startColumn⟩] :=
  stringLoop_ok q _ l l' h

theorem string_no_diverge (l : Lexer) (q : Char) : l.string q ≠ .diverge :=
  stringLoop_no_diverge q _ l (by omega)

/-! ### Number and identifier lemmas -/

theorem stepInv_then_addToken {l st : Lexer} (hi : StepInv l st) (ty : TokenType) :
    (st.addToken ty).source = l.source ∧ (st.addToken ty).start = l.start ∧
    l.current ≤ (st.addToken ty).current ∧
    (l.current ≤ l.source.length → (st.addToken ty).current ≤ l.source.length) ∧
    ∃ t : Token, (st.addToken ty).tokens = l.tokens ++ [t] ∧ t.type = ty := by
  refine ⟨?_, ?_, ?_, ?_, ⟨ty, String.mk (goSlice st.source st.start st.current),
    st.line, st.startColumn⟩, ?_, rfl⟩
  · simp [Lexer.addToken, Lexer.addTokenValue, hi.src]
  · simp [Lexer.addToken, Lexer.addTokenValue, hi.st]
  · simpa [Lexer.addToken, Lexer.addTokenValue] using hi.cur
  · intro hle
    simpa [Lexer.addToken, Lexer.addTokenValue] using hi.bnd hle
  · simp [Lexer.addToken, Lexer.addTokenValue, hi.tks]

theorem numberDecimal_inv (l : Lexer) :
    (l.numberDecimal).source = l.source ∧ (l.numberDecimal).start = l.start ∧
    l.current ≤ (l.numberDecimal).current ∧
    (l.current ≤ l.source.length → (l.numberDecimal).current ≤ l.source.length) ∧
    ∃ t : Token, (l.numberDecimal).tokens = l.tokens ++ [t] ∧ t.type = .TOKEN_NUMBER := by
  rw [Lexer.numberDecimal]
  simp only
  have h1 : StepInv l (Lexer.digitLoop isDigit (l.source.length + 1) l) :=
    digitLoop_inv isDigit (by decide) _ l
  set l1 := Lexer.digitLoop isDigit (l.source.length + 1) l with hl1
  have h2 : StepInv l1 (if l1.peek = '.' ∧ isDigit l1.peekNext then
      Lexer.digitLoop isDigit (l1.source.length + 1) ((l1.advance).2) else l1) := by
    split_ifs with hdot
    · have hlt : l1.current < l1.source.length := lt_of_peek_ne (by rw [hdot.1]; decide)
      exact (stepInv_advance hlt).comp (digitLoop_inv isDigit (by decide) _ _)
    · exact StepInv.refl l1
  set l2 := if l1.peek = '.' ∧ isDigit l1.peekNext then
      Lexer.digitLoop isDigit (l1.source.length + 1) ((l1.advance).2) else l1 with hl2
  have h3 : StepInv l2 (if l2.peek = 'e' ∨ l2.peek = 'E' then
      Lexer.digitLoop isDigit
        ((if ((l2.advance).2).peek = '+' ∨ ((l2.advance).2).peek = '-' then
            (((l2.advance).2).advance).2 else (l2.advance).2).source.length + 1)
        (if ((l2.advance).2).peek = '+' ∨ ((l2.advance).2).peek = '-' then
            (((l2.advance).2).advance).2 else (l2.advance).2)
      else l2) := by
    split_ifs with hexp hsign
    · have hlt : l2.current < l2.source.length := by
        rcases hexp with hx | hx
        · exact lt_of_peek_ne (by rw [hx]; decide)
        · exact lt_of_peek_ne (by rw [hx]; decide)
      have hlt2 : ((l2.advance).2).current < ((l2.advance).2).source.length := by
        rcases hsign with hx | hx
        · exact lt_of_peek_ne (by rw [hx]; decide)
        · exact lt_of_peek_ne (by rw [hx]; decide)
      exact (stepInv_advance hlt).comp
        ((stepInv_advance hlt2).comp (digitLoop_inv isDigit (by decide) _ _))
    · have hlt : l2.current < l2.source.length := by
        rcases hexp with hx | hx
        · exact lt_of_peek_ne (by rw [hx]; decide)
        · exact lt_of_peek_ne (by rw [hx]; decide)
      exact (stepInv_advance hlt).comp (digitLoop_inv isDigit (by decide) _ _)
    · exact StepInv.refl l2
  exact stepInv_then_addToken ((h1.comp h2).comp h3) .TOKEN_NUMBER

theorem number_inv (l : Lexer) :
    (l.number).source = l.source ∧ (l.number).start = l.start ∧
    l.current ≤ (l.number).current ∧
    (l.current ≤ l.source.length → (l.number).current ≤ l.source.length) ∧
    ∃ t : Token, (l.number).tokens = l.tokens ++ [t] ∧ t.type = .TOKEN_NUMBER := by
  rw [Lexer.number]
  by_cases hz : l.source.getD l.start nulChar = '0' ∧ l.current < l.source.length
  · rw [if_pos hz]
    by_cases hx : l.peek = 'x' ∨ l.peek = 'X'
    · rw [if_pos hx]
      exact stepInv_then_addToken
        ((stepInv_advance hz.2).comp (digitLoop_inv isHexDigit (by decide) _ _)) .TOKEN_NUMBER
    · rw [if_neg hx]
      by_cases hb : l.peek = 'b' ∨ l.peek = 'B'
      · rw [if_pos hb]
        exact stepInv_then_addToken
          ((stepInv_advance hz.2).comp (digitLoop_inv _ (by decide) _ _)) .TOKEN_NUMBER
      · rw [if_neg hb]
        by_cases ho : l.peek = 'o' ∨ l.peek = 'O'
        · rw [if_pos ho]
          exact stepInv_then_addToken
            ((stepInv_advance hz.2).comp (digitLoop_inv _ (by decide) _ _)) .TOKEN_NUMBER
        · rw [if_neg ho]
          exact numberDecimal_inv l
  · rw [if_neg hz]
    exact numberDecimal_inv l

theorem keywordLookup_ne (s : String) (ty : TokenType) (h : keywordLookup s = some ty) :
    ty ≠ .TOKEN_EOF ∧ ty ≠ .TOKEN_NEWLINE := by
  rw [keywordLookup, Option.map_eq_some'] at h
  obtain ⟨pr, hfind, hpr⟩ := h
  have hmem := List.mem_of_find?_eq_some hfind
  have hall : ∀ p ∈ keywords, p.2 ≠ TokenType.TOKEN_EOF ∧ p.2 ≠ TokenType.TOKEN_NEWLINE := by
    decide
  rw [← hpr]
  exact hall pr hmem

theorem identifier_inv (l : Lexer) :
    (l.identifier).source = l.source ∧ (l.identifier).start = l.start ∧
    l.current ≤ (l.identifier).current ∧
    (l.current ≤ l.source.length → (l.identifier).current ≤ l.source.length) ∧
    ∃ t : Token, (l.identifier).tokens = l.tokens ++ [t] ∧
      t.type ≠ .TOKEN_EOF ∧ t.type ≠ .TOKEN_NEWLINE := by
  rw [Lexer.identifier]
  have h1 : StepInv l (Lexer.digitLoop isAlphaNumeric (l.source.length + 1) l) :=
    digitLoop_inv isAlphaNumeric (by decide) _ l
  set l1 := Lexer.digitLoop isAlphaNumeric (l.source.length + 1) l with hl1
  set ty := (keywordLookup (String.mk (goSlice l1.source l1.start l1.current))).getD
    .TOKEN_IDENT with hty
  obtain ⟨a1, a2, a3, a4, t, a5, a6⟩ := stepInv_then_addToken h1 ty
  refine ⟨a1, a2, a3, a4, t, a5, ?_⟩
  rw [a6, hty]
  rcases hk : keywordLookup (String.mk (goSlice l1.source l1.start l1.current)) with _ | ty2
  · exact ⟨by decide, by decide⟩
  · simpa using keywordLookup_ne _ _ hk

/-! ### Comment lemmas -/

theorem commentCloseLoop_noclose (k : Nat) :
    ∀ (fuel : Nat) (l : Lexer),
      l.source.length - l.current < fuel → l.current ≤ l.source.length →
      containsSeq (closeSeq k) (l.source.drop l.current) = false →
      (Lexer.commentCloseLoop k fuel l).source = l.source ∧
      (Lexer.commentCloseLoop k fuel l).tokens = l.tokens ∧
      (Lexer.commentCloseLoop k fuel l).start = l.start ∧
      (Lexer.commentCloseLoop k fuel l).current = l.source.length := by
  intro fuel
  induction fuel with
  | zero => intro l hfu hc hno; omega
  | succ fuel ih =>
    intro l hfu hc hno
    rw [Lexer.commentCloseLoop]
    by_cases hend : l.isAtEnd
    · rw [if_pos hend]
      have := (isAtEnd_true_iff l).1 hend
      exact ⟨rfl, rfl, rfl, by omega⟩
    · rw [if_neg hend]
      simp only
      have hlt : l.current < l.source.length := (isAtEnd_false_iff l).1 (by simpa using hend)
      rcases hd : l.source.drop l.current with _ | ⟨c, t⟩
      · exact absurd (List.drop_eq_nil_iff.1 hd) (by omega)
      · have hpk := peek_cons hd
        have hdrop : l.source.drop (l.current + 1) = t := drop_succ_of_cons hd
        have hnot : containsSeq (closeSeq k) t = false := by
          rw [hd] at hno
          exact containsSeq_tail hno
        have hlen : t.length + 1 = l.source.length - l.current := by
          have h1 : (l.source.drop l.current).length = l.source.length - l.current :=
            List.length_drop _ _
          rw [hd] at h1
          simpa using h1
        by_cases hnl : l.peek = '\n'
        · rw [if_pos hnl]
          have hpkB : Lexer.peek { l with line := l.line + 1, column := 0 } = l.peek := rfl
          rw [if_neg (by rw [hpkB, hnl]; decide)]
          obtain ⟨b1, b2, b3, b4⟩ :=
            ih (Lexer.advance { l with line := l.line + 1, column := 0 }).2
              (by simp only [Lexer.advance]; omega)
              (by simp only [Lexer.advance]; omega)
              (by simp only [Lexer.advance]; rw [hdrop]; exact hnot)
          simp only [Lexer.advance] at b1 b2 b3 b4
          exact ⟨b1, b2, b3, b4⟩
        · rw [if_neg hnl]
          by_cases hbr : l.peek = ']'
          · rw [if_pos hbr]
            have hcbr : c = ']' := by rw [← hpk]; exact hbr
            rw [eqMatchLoop_exact k (((l.advance).2).source.length + 1) ((l.advance).2) 0
              (by simp only [Lexer.advance]; omega)]
            simp only [Lexer.advance, Nat.zero_add, Nat.sub_zero]
            rw [hdrop]
            split_ifs with hcl
            · exfalso
              obtain ⟨rest, htdec, hrest⟩ := countEq_decomp t
              set e := countEq t with he
              have hke : k ≤ e := min_eq_right_iff.1 hcl.1
              have hpk2 := hcl.2
              rw [peek_eq] at hpk2
              simp only at hpk2
              have hdrop2 : l.source.drop (l.current + 1 + min e k) = t.drop (min e k) := by
                rw [← hdrop, List.drop_drop]
              rw [hdrop2, min_eq_right_iff.2 hke] at hpk2
              have hsplit : t = List.replicate k '=' ++
                  (List.replicate (e - k) '=' ++ rest) := by
                rw [htdec, ← List.append_assoc, ← List.replicate_add]
                congr 2
                omega
              rw [hsplit, List.drop_left' (by simp)] at hpk2
              rcases hek : e - k with _ | e2
              · rw [hek] at hpk2
                simp only [List.replicate, List.nil_append] at hpk2
                rcases rest with _ | ⟨c2, rest2⟩
                · exact absurd hpk2 (by decide)
                · have hc2 : c2 = ']' := by simpa using hpk2
                  have hek0 : e = k := by omega
                  have hpre : (closeSeq k).isPrefixOf (l.source.drop l.current) = true := by
                    rw [hd, hcbr, closeSeq, htdec, hek0, hc2]
                    simp [List.isPrefixOf, isPrefixOf_append_cons]
                  have := containsSeq_of_isPrefixOf hpre
                  rw [this] at hno
                  cases hno
              · rw [hek] at hpk2
                rw [List.replicate_succ] at hpk2
                simp only [List.cons_append, List.headD_cons] at hpk2
                exact absurd hpk2 (by decide)
            · have hmin : min (countEq t) k ≤ t.length := by
                have := countEq_le_length t
                omega
              obtain ⟨b1, b2, b3, b4⟩ := ih
                { l with current := l.current + 1 + min (countEq t) k,
                         column := l.column + 1 + min (countEq t) k }
                (by simp only; omega)
                (by simp only; omega)
                (by simp only
                    rw [show l.source.drop (l.current + 1 + min (countEq t) k) =
                        t.drop (min (countEq t) k) from by rw [← hdrop, List.drop_drop]]
                    exact containsSeq_drop _ t hnot)
              simp only at b1 b2 b3 b4
              exact ⟨b1, b2, b3, b4⟩
          · rw [if_neg hbr]
            obtain ⟨b1, b2, b3, b4⟩ :=
              ih ((l.advance).2)
                (by simp only [Lexer.advance]; omega)
                (by simp only [Lexer.advance]; omega)
                (by simp only [Lexer.advance]; rw [hdrop]; exact hnot)
            simp only [Lexer.advance] at b1 b2 b3 b4
            exact ⟨b1, b2, b3, b4⟩

theorem comment_noclose (l : Lexer) (k : Nat) (s : List Char)
    (hd : l.source.drop l.current = '[' :: (List.replicate k '=' ++ ('[' :: s)))
    (hcs : containsSeq (closeSeq k) s = false) :
    (l.comment).source = l.source ∧ (l.comment).tokens = l.tokens ∧
    (l.comment).start = l.start ∧ (l.comment).current = l.source.length := by
  have hpk : l.peek = '[' := peek_cons hd
  have hlt : l.current < l.source.length := drop_cons_lt hd
  have hdrop1 : l.source.drop (l.current + 1) = List.replicate k '=' ++ ('[' :: s) :=
    drop_succ_of_cons hd
  have hlen1 : (List.replicate k '=' ++ ('[' :: s)).length =
      l.source.length - (l.current + 1) := by
    rw [← hdrop1, List.length_drop]
  have hpn : l.peekNext = '[' ∨ l.peekNext = '=' := by
    rw [peekNext_eq, hdrop1]
    cases k with
    | zero => left; rfl
    | succ k2 => right; rw [List.replicate_succ]; rfl
  rw [Lexer.comment, if_pos ⟨hpk, hpn⟩]
  simp only
  rw [eqLoop_exact k (((l.advance).2).source.length + 1) ((l.advance).2) 0 ('[' :: s)
    (by simp only [Lexer.advance]; exact hdrop1)
    (by simp)
    (by simp only [Lexer.advance]
        simp only [List.length_append, List.length_replicate, List.length_cons] at hlen1
        omega)]
  simp only [Lexer.advance, Nat.zero_add]
  have hdropA : l.source.drop (l.current + 1 + k) = '[' :: s := by
    rw [← List.drop_drop, hdrop1, List.drop_left' (by simp)]
  have hpkA : Lexer.peek ({ l with current := l.current + 1 + k, column := l.column + 1 + k } : Lexer) = '[' := by
    rw [peek_eq]
    simp only
    rw [hdropA]
    rfl
  rw [if_neg (by simp [hpkA])]
  have hltA : l.current + 1 + k < l.source.length := lt_of_drop_cons hdropA
  obtain ⟨b1, b2, b3, b4⟩ := commentCloseLoop_noclose k
    ((Lexer.advance ({ l with current := l.current + 1 + k, column := l.column + 1 + k } : Lexer)).2.source.length + 1)
    ((Lexer.advance ({ l with current := l.current + 1 + k, column := l.column + 1 + k } : Lexer)).2)
    (by simp only [Lexer.advance]; omega)
    (by simp only [Lexer.advance]; omega)
    (by simp only [Lexer.advance]
        rw [show l.source.drop (l.current + 1 + k + 1) = s from drop_succ_of_cons' hdropA]
        exact hcs)
  simp only [Lexer.advance] at b1 b2 b3 b4
  exact ⟨b1, b2, b3, b4⟩

theorem takeWhile_notNl_replicateEq (k : Nat) (rest : List Char) :
    (List.replicate k '=' ++ rest).takeWhile notNl =
      List.replicate k '=' ++ rest.takeWhile notNl := by
  induction k with
  | zero => simp
  | succ k ih =>
    rw [List.replicate_succ, List.cons_append,
      List.takeWhile_cons_of_pos (by decide), ih, List.cons_append]

theorem comment_fallback (l : Lexer) (k : Nat) (rest : List Char)
    (hd : l.source.drop l.current = '[' :: (List.replicate k '=' ++ rest))
    (h1 : rest.head? ≠ some '=') (h2 : rest.head? ≠ some '[') :
    l.comment = { l with
      current := l.current + ((l.source.drop l.current).takeWhile notNl).length,
      column := l.column + ((l.source.drop l.current).takeWhile notNl).length } := by
  have hpk : l.peek = '[' := peek_cons hd
  have hlt : l.current < l.source.length := drop_cons_lt hd
  have hdrop1 : l.source.drop (l.current + 1) = List.replicate k '=' ++ rest :=
    drop_succ_of_cons hd
  have hlen1 : (List.replicate k '=' ++ rest).length = l.source.length - (l.current + 1) := by
    rw [← hdrop1, List.length_drop]
  have htw : (l.source.drop l.current).takeWhile notNl =
      '[' :: (List.replicate k '=' ++ rest.takeWhile notNl) := by
    rw [hd, List.takeWhile_cons_of_pos (by decide), takeWhile_notNl_replicateEq]
  rw [Lexer.comment]
  by_cases hcond : l.peek = '[' ∧ (l.peekNext = '[' ∨ l.peekNext = '=')
  · rw [if_pos hcond]
    simp only
    rw [eqLoop_exact k (((l.advance).2).source.length + 1) ((l.advance).2) 0 rest
      (by simp only [Lexer.advance]; exact hdrop1)
      h1
      (by simp only [Lexer.advance]
          simp only [List.length_append, List.length_replicate] at hlen1
          omega)]
    simp only [Lexer.advance, Nat.zero_add]
    have hdropA : l.source.drop (l.current + 1 + k) = rest := by
      rw [← List.drop_drop, hdrop1, List.drop_left' (by simp)]
    have hpkA : Lexer.peek ({ l with current := l.current + 1 + k, column := l.column + 1 + k } : Lexer) = rest.headD nulChar := by
      rw [peek_eq]
      simp only
      rw [hdropA]
    have hne : Lexer.peek ({ l with current := l.current + 1 + k, column := l.column + 1 + k } : Lexer) ≠ '[' := by
      rw [hpkA]
      rcases rest with _ | ⟨c2, r2⟩
      · simp only [List.headD_nil]
        decide
      · simpa using h2
    rw [if_pos hne]
    rw [slLoop_exact (l.source.length + 1)
      ({ l with current := l.current + 1 + k, column := l.column + 1 + k } : Lexer)
      (by simp only; omega)]
    simp only
    rw [hdropA, htw]
    simp only [List.length_cons, List.length_append, List.length_replicate]
    congr 1 <;> omega
  · rw [if_neg hcond]
    rw [slLoop_exact (l.source.length + 1) l (by omega)]

/-! ### The scanToken step invariant -/

/-- What one successful scanning step guarantees: the cursor advances
strictly (staying in bounds), the source is untouched, and at most one
token — never `TOKEN_EOF` or `TOKEN_NEWLINE` — is appended.  Errors and
the panic are unconstrained here; fuel exhaustion is impossible. -/
def ScanOkP (l : Lexer) : LexOut → Prop
  | .ok l' => l'.source = l.source ∧ l.current < l'.current ∧
      l'.current ≤ l.source.length ∧
      ∃ ts, l'.tokens = l.tokens ++ ts ∧ ts.length ≤ 1 ∧
        ∀ t ∈ ts, t.type ≠ .TOKEN_EOF ∧ t.type ≠ .TOKEN_NEWLINE
  | .err _ => True
  | .panic => True
  | .diverge => False

theorem matchChar_fields (l : Lexer) (e : Char) :
    (l.matchChar e).2.source = l.source ∧ (l.matchChar e).2.tokens = l.tokens ∧
    (l.matchChar e).2.start = l.start ∧ (l.matchChar e).2.line = l.line ∧
    l.current ≤ (l.matchChar e).2.current ∧
    (l.current ≤ l.source.length → (l.matchChar e).2.current ≤ l.source.length) := by
  rw [Lexer.matchChar]
  split_ifs with hA hB
  · exact ⟨rfl, rfl, rfl, rfl, Nat.le_refl _, id⟩
  · exact ⟨rfl, rfl, rfl, rfl, Nat.le_refl _, id⟩
  · refine ⟨rfl, rfl, rfl, rfl, by simp, fun _ => ?_⟩
    simp only
    have := (isAtEnd_false_iff l).1 (by simpa using hA)
    omega

theorem matchChar_true {l : Lexer} {e : Char} (h : (l.matchChar e).1 = true) :
    (l.matchChar e).2.current = l.current + 1 ∧ l.current < l.source.length := by
  rw [Lexer.matchChar] at h ⊢
  split_ifs at h ⊢ with hA hB
  exact ⟨rfl, (isAtEnd_false_iff l).1 (by simpa using hA)⟩

theorem scanOk_addToken {l0 st : Lexer} (ty : TokenType)
    (hsrc : st.source = l0.source) (htk : st.tokens = l0.tokens)
    (hc1 : l0.current < st.current) (hc2 : st.current ≤ l0.source.length)
    (hty1 : ty ≠ .TOKEN_EOF) (hty2 : ty ≠ .TOKEN_NEWLINE) :
    ScanOkP l0 (.ok (st.addToken ty)) := by
  refine ⟨by simp [Lexer.addToken, Lexer.addTokenValue, hsrc],
    by simpa [Lexer.addToken, Lexer.addTokenValue] using hc1,
    by simpa [Lexer.addToken, Lexer.addTokenValue] using hc2,
    [⟨ty, String.mk (goSlice st.source st.start st.current), st.line, st.startColumn⟩],
    by simp [Lexer.addToken, Lexer.addTokenValue, htk], by simp, ?_⟩
  intro t ht
  simp only [List.mem_singleton] at ht
  subst ht
  exact ⟨hty1, hty2⟩

theorem scanOk_noToken {l0 st : Lexer} (hsrc : st.source = l0.source)
    (htk : st.tokens = l0.tokens) (hc1 : l0.current < st.current)
    (hc2 : st.current ≤ l0.source.length) : ScanOkP l0 (.ok st) :=
  ⟨hsrc, hc1, hc2, [], by simp [htk], by simp, by simp⟩

theorem scanOk_single (l0 : Lexer) (hcur : l0.current < l0.source.length)
    (ty : TokenType) (h1 : ty ≠ .TOKEN_EOF) (h2 : ty ≠ .TOKEN_NEWLINE) :
    ScanOkP l0 (.ok (((l0.advance).2).addToken ty)) :=
  scanOk_addToken ty rfl rfl (by simp [Lexer.advance])
    (by simp only [Lexer.advance]; omega) h1 h2

theorem scanOk_matchTok (l0 : Lexer) (hcur : l0.current < l0.source.length)
    (e : Char) (tyT tyF : TokenType)
    (h1T : tyT ≠ .TOKEN_EOF) (h2T : tyT ≠ .TOKEN_NEWLINE)
    (h1F : tyF ≠ .TOKEN_EOF) (h2F : tyF ≠ .TOKEN_NEWLINE) :
    ScanOkP l0 (.ok (if (((l0.advance).2).matchChar e).1 = true then
        ((((l0.advance).2).matchChar e).2).addToken tyT
      else ((l0.advance).2).addToken tyF)) := by
  by_cases hm : (((l0.advance).2).matchChar e).1 = true
  · rw [if_pos hm]
    obtain ⟨f1, f2, f3, f4, f5, f6⟩ := matchChar_fields ((l0.advance).2) e
    refine scanOk_addToken _ (by simpa [Lexer.advance] using f1)
      (by simpa [Lexer.advance] using f2) ?_ ?_ h1T h2T
    · simp only [Lexer.advance] at f5 ⊢
      omega
    · have := f6 (by simp only [Lexer.advance]; omega)
      simpa [Lexer.advance] using this
  · rw [if_neg hm]
    exact scanOk_single l0 hcur tyF h1F h2F

theorem scanOk_matchTokOnly (l0 : Lexer) (hcur : l0.current < l0.source.length)
    (e : Char) (ty : TokenType) (h1 : ty ≠ .TOKEN_EOF) (h2 : ty ≠ .TOKEN_NEWLINE) :
    ScanOkP l0 (.ok (((((l0.advance).2).matchChar e).2).addToken ty)) := by
  obtain ⟨f1, f2, f3, f4, f5, f6⟩ := matchChar_fields ((l0.advance).2) e
  refine scanOk_addToken _ (by simpa [Lexer.advance] using f1)
    (by simpa [Lexer.advance] using f2) ?_ ?_ h1 h2
  · simp only [Lexer.advance] at f5 ⊢
    omega
  · have := f6 (by simp only [Lexer.advance]; omega)
    simpa [Lexer.advance] using this

theorem scanOk_number (l0 : Lexer) (hcur : l0.current < l0.source.length) :
    ScanOkP l0 (.ok (((l0.advance).2).number)) := by
  obtain ⟨n1, n2, n3, n4, t, n5, n6⟩ := number_inv ((l0.advance).2)
  refine ⟨by simpa [Lexer.advance] using n1, ?_, ?_, [t],
    by simpa [Lexer.advance] using n5, by simp, ?_⟩
  · have := n3
    simp only [Lexer.advance] at this ⊢
    omega
  · have := n4 (by simp only [Lexer.advance]; omega)
    simpa [Lexer.advance] using this
  · intro t' ht'
    simp only [List.mem_singleton] at ht'
    subst ht'
    rw [n6]
    exact ⟨by decide, by decide⟩

theorem scanOk_identifier (l0 : Lexer) (hcur : l0.current < l0.source.length) :
    ScanOkP l0 (.ok (((l0.advance).2).identifier)) := by
  obtain ⟨n1, n2, n3, n4, t, n5, n6⟩ := identifier_inv ((l0.advance).2)
  refine ⟨by simpa [Lexer.advance] using n1, ?_, ?_, [t],
    by simpa [Lexer.advance] using n5, by simp, ?_⟩
  · have := n3
    simp only [Lexer.advance] at this ⊢
    omega
  · have := n4 (by simp only [Lexer.advance]; omega)
    simpa [Lexer.advance] using this
  · intro t' ht'
    simp only [List.mem_singleton] at ht'
    subst ht'
    exact n6

theorem scanToken_spec (l : Lexer) (hcur : l.current < l.source.length)
    (hst : l.start = l.current) : ScanOkP l l.scanToken := by
  rw [Lexer.scanToken]
  simp only
  by_cases h1 : (l.advance).1 = '('
  · rw [if_pos h1]; exact scanOk_single l hcur _ (by decide) (by decide)
  rw [if_neg h1]
  by_cases h2 : (l.advance).1 = ')'
  · rw [if_pos h2]; exact scanOk_single l hcur _ (by decide) (by decide)
  rw [if_neg h2]
  by_cases h3 : (l.advance).1 = '{'
  · rw [if_pos h3]; exact scanOk_single l hcur _ (by decide) (by decide)
  rw [if_neg h3]
  by_cases h4 : (l.advance).1 = '}'
  · rw [if_pos h4]; exact scanOk_single l hcur _ (by decide) (by decide)
  rw [if_neg h4]
  by_cases h5 : (l.advance).1 = '['
  · rw [if_pos h5]
    by_cases hbk : ((l.advance).2).peek = '[' ∨ ((l.advance).2).peek = '='
    · rw [if_pos hbk]
      have hc2 : ((l.advance).2).current ≤ ((l.advance).2).source.length := by
        simp only [Lexer.advance]
        omega
      have hs2 : ((l.advance).2).start + 1 ≤ ((l.advance).2).current := by
        simp only [Lexer.advance]
        omega
      cases hres : ((l.advance).2).multilineString with
      | ok l' =>
        obtain ⟨a1, a2, a3, a4, a5, t, a6, a7⟩ := multilineString_ok _ _ hc2 hs2 hres
        refine ⟨by simpa [Lexer.advance] using a1, ?_, ?_, [t],
          by simpa [Lexer.advance] using a6, by simp, ?_⟩
        · have := a4
          simp only [Lexer.advance] at this
          omega
        · have := a5
          simp only [Lexer.advance] at this
          omega
        · intro t' ht'
          simp only [List.mem_singleton] at ht'
          subst ht'
          rcases a7 with h | h <;> rw [h] <;> exact ⟨by decide, by decide⟩
      | err e => trivial
      | panic => trivial
      | diverge => exact absurd hres (multilineString_no_diverge _ hc2)
    · rw [if_neg hbk]; exact scanOk_single l hcur _ (by decide) (by decide)
  rw [if_neg h5]
  by_cases h6 : (l.advance).1 = ']'
  · rw [if_pos h6]; exact scanOk_single l hcur _ (by decide) (by decide)
  rw [if_neg h6]
  by_cases h7 : (l.advance).1 = ';'
  · rw [if_pos h7]; exact scanOk_single l hcur _ (by decide) (by decide)
  rw [if_neg h7]
  by_cases h8 : (l.advance).1 = ','
  · rw [if_pos h8]; exact scanOk_single l hcur _ (by decide) (by decide)
  rw [if_neg h8]
  by_cases h9 : (l.advance).1 = '#'
  · rw [if_pos h9]; exact scanOk_single l hcur _ (by decide) (by decide)
  rw [if_neg h9]
  by_cases h10 : (l.advance).1 = '^'
  · rw [if_pos h10]; exact scanOk_single l hcur _ (by decide) (by decide)
  rw [if_neg h10]
  by_cases h11 : (l.advance).1 = '+'
  · rw [if_pos h11]
    exact scanOk_matchTok l hcur '=' _ _ (by decide) (by decide) (by decide) (by decide)
  rw [if_neg h11]
  by_cases h12 : (l.advance).1 = '-'
  · rw [if_pos h12]
    by_cases hm : ((((l.advance).2).matchChar '-').1 = true)
    · rw [if_pos hm]
      obtain ⟨hmc, hlt1⟩ := matchChar_true hm
      obtain ⟨f1, f2, f3, f4, f5, f6⟩ := matchChar_fields ((l.advance).2) '-'
      have hci := comment_inv ((((l.advance).2).matchChar '-').2)
      refine scanOk_noToken ?_ ?_ ?_ ?_
      · rw [hci.src]
        simpa [Lexer.advance] using f1
      · rw [hci.tks]
        simpa [Lexer.advance] using f2
      · have := hci.cur
        rw [hmc] at this
        simp only [Lexer.advance] at this ⊢
        omega
      · have hb := hci.bnd (by
          rw [hmc, f1]
          simp only [Lexer.advance] at hlt1 ⊢
          omega)
        rw [f1] at hb
        simpa [Lexer.advance] using hb
    · rw [if_neg hm]
      exact scanOk_matchTok l hcur '=' _ _ (by decide) (by decide) (by decide) (by decide)
  rw [if_neg h12]
  by_cases h13 : (l.advance).1 = '*'
  · rw [if_pos h13]
    exact scanOk_matchTok l hcur '=' _ _ (by decide) (by decide) (by decide) (by decide)
  rw [if_neg h13]
  by_cases h14 : (l.advance).1 = '/'
  · rw [if_pos h14]
    exact scanOk_matchTok l hcur '=' _ _ (by decide) (by decide) (by decide) (by decide)
  rw [if_neg h14]
  by_cases h15 : (l.advance).1 = '%'
  · rw [if_pos h15]
    exact scanOk_matchTok l hcur '=' _ _ (by decide) (by decide) (by decide) (by decide)
  rw [if_neg h15]
  by_cases h16 : (l.advance).1 = '='
  · rw [if_pos h16]
    exact scanOk_matchTok l hcur '=' _ _ (by decide) (by decide) (by decide) (by decide)
  rw [if_neg h16]
  by_cases h17 : (l.advance).1 = '!'
  · rw [if_pos h17]
    by_cases hm : ((((l.advance).2).matchChar '=').1 = true)
    · rw [if_pos hm]
      exact scanOk_matchTokOnly l hcur '=' _ (by decide) (by decide)
    · rw [if_neg hm]; trivial
  rw [if_neg h17]
  by_cases h18 : (l.advance).1 = '~'
  · rw [if_pos h18]
    by_cases hm : ((((l.advance).2).matchChar '=').1 = true)
    · rw [if_pos hm]
      exact scanOk_matchTokOnly l hcur '=' _ (by decide) (by decide)
    · rw [if_neg hm]; trivial
  rw [if_neg h18]
  by_cases h19 : (l.advance).1 = '<'
  · rw [if_pos h19]
    exact scanOk_matchTok l hcur '=' _ _ (by decide) (by decide) (by decide) (by decide)
  rw [if_neg h19]
  by_cases h20 : (l.advance).1 = '>'
  · rw [if_pos h20]
    exact scanOk_matchTok l hcur '=' _ _ (by decide) (by decide) (by decide) (by decide)
  rw [if_neg h20]
  by_cases h21 : (l.advance).1 = ':'
  · rw [if_pos h21]
    exact scanOk_matchTok l hcur ':' _ _ (by decide) (by decide) (by decide) (by decide)
  rw [if_neg h21]
  by_cases h22 : (l.advance).1 = '.'
  · rw [if_pos h22]
    by_cases hm : ((((l.advance).2).matchChar '.').1 = true)
    · rw [if_pos hm]
      obtain ⟨f1, f2, f3, f4, f5, f6⟩ := matchChar_fields ((l.advance).2) '.'
      by_cases hm2 : (((((l.advance).2).matchChar '.').2).matchChar '.').1 = true
      · rw [if_pos hm2]
        obtain ⟨g1, g2, g3, g4, g5, g6⟩ :=
          matchChar_fields ((((l.advance).2).matchChar '.').2) '.'
        refine scanOk_addToken _ (by rw [g1]; simpa [Lexer.advance] using f1)
          (by rw [g2]; simpa [Lexer.advance] using f2) ?_ ?_ (by decide) (by decide)
        · have hf5 := f5
          have hg5 := g5
          simp only [Lexer.advance] at hf5 hg5 ⊢
          omega
        · have hmid : ((((l.advance).2).matchChar '.').2).current ≤
              ((((l.advance).2).matchChar '.').2).source.length := by
            rw [f1]
            have := f6 (by simp only [Lexer.advance]; omega)
            simp only [Lexer.advance] at this ⊢
            omega
          have := g6 hmid
          rw [f1] at this
          simpa [Lexer.advance] using this
      · rw [if_neg hm2]
        by_cases hm3 : (((((l.advance).2).matchChar '.').2).matchChar '=').1 = true
        · rw [if_pos hm3]
          obtain ⟨g1, g2, g3, g4, g5, g6⟩ :=
            matchChar_fields ((((l.advance).2).matchChar '.').2) '='
          refine scanOk_addToken _ (by rw [g1]; simpa [Lexer.advance] using f1)
            (by rw [g2]; simpa [Lexer.advance] using f2) ?_ ?_ (by decide) (by decide)
          · have hf5 := f5
            have hg5 := g5
            simp only [Lexer.advance] at hf5 hg5 ⊢
            omega
          · have hmid : ((((l.advance).2).matchChar '.').2).current ≤
                ((((l.advance).2).matchChar '.').2).source.length := by
              rw [f1]
              have := f6 (by simp only [Lexer.advance]; omega)
              simp only [Lexer.advance] at this ⊢
              omega
            have := g6 hmid
            rw [f1] at this
            simpa [Lexer.advance] using this
        · rw [if_neg hm3]
          refine scanOk_addToken _ (by simpa [Lexer.advance] using f1)
            (by simpa [Lexer.advance] using f2) ?_ ?_ (by decide) (by decide)
          · have hf5 := f5
            simp only [Lexer.advance] at hf5 ⊢
            omega
          · have := f6 (by simp only [Lexer.advance]; omega)
            simpa [Lexer.advance] using this
    · rw [if_neg hm]
      by_cases hdig : isDigit (((l.advance).2).peek) = true
      · rw [if_pos hdig]
        exact scanOk_number l hcur
      · rw [if_neg hdig]
        exact scanOk_single l hcur _ (by decide) (by decide)
  rw [if_neg h22]
  by_cases h23 : (l.advance).1 = '?'
  · rw [if_pos h23]
    by_cases hm : ((((l.advance).2).matchChar '.').1 = true)
    · rw [if_pos hm]
      exact scanOk_matchTokOnly l hcur '.' _ (by decide) (by decide)
    · rw [if_neg hm]
      by_cases hm2 : ((((l.advance).2).matchChar '?').1 = true)
      · rw [if_pos hm2]
        exact scanOk_matchTokOnly l hcur '?' _ (by decide) (by decide)
      · rw [if_neg hm2]; trivial
  rw [if_neg h23]
  by_cases h24 : (l.advance).1 = dquote ∨ (l.advance).1 = squote
  · rw [if_pos h24]
    cases hres : ((l.advance).2).string ((l.advance).1) with
    | ok l' =>
      obtain ⟨a1, a2, a3, a4, a5, a6, v, a7⟩ := string_ok _ _ _ hres
      refine ⟨by simpa [Lexer.advance] using a1, ?_, ?_,
        [⟨.TOKEN_STRING, v, ((l.advance).2).line, ((l.advance).2).startColumn⟩],
        by simpa [Lexer.advance] using a7, by simp, ?_⟩
      · have := a5
        simp only [Lexer.advance] at this ⊢
        omega
      · have := a6
        simp only [Lexer.advance] at this ⊢
        omega
      · intro t' ht'
        simp only [List.mem_singleton] at ht'
        subst ht'
        exact ⟨(fun hcon => nomatch hcon), (fun hcon => nomatch hcon)⟩
    | err e => trivial
    | panic => trivial
    | diverge => exact absurd hres (string_no_diverge _ _)
  rw [if_neg h24]
  by_cases h25 : (l.advance).1 = btick
  · rw [if_pos h25]
    cases hres : ((l.advance).2).templateString with
    | ok l' =>
      obtain ⟨a1, a2, a3, a4, a5, ln, a6⟩ := templateString_ok _ _ hres
      refine ⟨by simpa [Lexer.advance] using a1, ?_, ?_, _,
        by simpa [Lexer.advance] using a6, by simp, ?_⟩
      · have := a4
        simp only [Lexer.advance] at this ⊢
        omega
      · have := a5
        simp only [Lexer.advance] at this ⊢
        omega
      · intro t' ht'
        simp only [List.mem_singleton] at ht'
        subst ht'
        exact ⟨(fun hcon => nomatch hcon), (fun hcon => nomatch hcon)⟩
    | err e => trivial
    | panic => trivial
    | diverge => exact absurd hres (templateString_no_diverge _)
  rw [if_neg h25]
  by_cases h26 : (l.advance).1 = '\n'
  · rw [if_pos h26]
    exact scanOk_noToken rfl rfl (by simp [Lexer.advance])
      (by simp only [Lexer.advance]; omega)
  rw [if_neg h26]
  by_cases h27 : (l.advance).1 = ' ' ∨ (l.advance).1 = '\r' ∨ (l.advance).1 = '\t'
  · rw [if_pos h27]
    exact scanOk_noToken rfl rfl (by simp [Lexer.advance])
      (by simp only [Lexer.advance]; omega)
  rw [if_neg h27]
  by_cases h28 : isDigit ((l.advance).1) = true
  · rw [if_pos h28]
    exact scanOk_number l hcur
  rw [if_neg h28]
  by_cases h29 : isAlpha ((l.advance).1) = true
  · rw [if_pos h29]
    exact scanOk_identifier l hcur
  rw [if_neg h29]
  trivial

/-! ### Tokenize loop lemmas -/

theorem tokenizeLoop_no_diverge :
    ∀ (fuel : Nat) (l : Lexer), l.source.length - l.current < fuel →
      l.current ≤ l.source.length → Lexer.tokenizeLoop fuel l ≠ .diverge := by
  intro fuel
  induction fuel with
  | zero => intro l hf hc; omega
  | succ fuel ih =>
    intro l hf hc
    rw [Lexer.tokenizeLoop]
    by_cases hend : l.isAtEnd
    · rw [if_pos hend]
      intro h
      cases h
    · rw [if_neg hend]
      have hlt : l.current < l.source.length := (isAtEnd_false_iff l).1 (by simpa using hend)
      have hs := scanToken_spec { l with start := l.current, startColumn := l.column }
        (by simpa using hlt) rfl
      cases hsc : Lexer.scanToken { l with start := l.current, startColumn := l.column } with
      | ok l2 =>
        rw [hsc] at hs
        obtain ⟨s1, s2, s3, _⟩ := hs
        simp only at s1 s2 s3
        refine ih l2 ?_ ?_
        · rw [s1]
          omega
        · rw [s1]
          exact s3
      | err e => intro h; cases h
      | panic => intro h; cases h
      | diverge =>
        rw [hsc] at hs
        exact absurd hs (by simp [ScanOkP])

theorem tokenizeLoop_ok :
    ∀ (fuel : Nat) (l l' : Lexer), Lexer.tokenizeLoop fuel l = .ok l' →
      l.current ≤ l.source.length →
      l'.source = l.source ∧
      ∃ ts, l'.tokens = l.tokens ++ ts ∧
        ∀ t ∈ ts, t.type ≠ .TOKEN_EOF ∧ t.type ≠ .TOKEN_NEWLINE := by
  intro fuel
  induction fuel with
  | zero => intro l l' h hc; cases h
  | succ fuel ih =>
    intro l l' h hc
    rw [Lexer.tokenizeLoop] at h
    by_cases hend : l.isAtEnd
    · rw [if_pos hend] at h
      obtain rfl := LexOut.ok.inj h
      exact ⟨rfl, [], by simp, by simp⟩
    · rw [if_neg hend] at h
      have hlt : l.current < l.source.length := (isAtEnd_false_iff l).1 (by simpa using hend)
      have hs := scanToken_spec { l with start := l.current, startColumn := l.column }
        (by simpa using hlt) rfl
      cases hsc : Lexer.scanToken { l with start := l.current, startColumn := l.column } with
      | ok l2 =>
        rw [hsc] at h hs
        obtain ⟨s1, s2, s3, ts0, s4, s5, s6⟩ := hs
        simp only at s1 s2 s3 s4
        obtain ⟨r1, ts1, r2, r3⟩ := ih l2 l' h (by rw [s1]; exact s3)
        refine ⟨by rw [r1, s1], ts0 ++ ts1, ?_, ?_⟩
        · rw [r2, s4, List.append_assoc]
        · intro t ht
          rcases List.mem_append.1 ht with h1 | h1
          · exact s6 t h1
          · exact r3 t h1
      | err e => rw [hsc] at h; cases h
      | panic => rw [hsc] at h; cases h
      | diverge => rw [hsc] at h; cases h

/-! ### Symbolic one-step evaluations of scanToken -/

theorem scanToken_ddash (l : Lexer) {rest : List Char}
    (hd : l.source.drop l.current = '-' :: ('-' :: rest)) :
    l.scanToken = .ok (Lexer.comment
      { l with current := l.current + 1 + 1, column := l.column + 1 + 1 }) := by
  have ha : l.source[l.current]?.getD nulChar = '-' := by
    rw [← List.head?_drop, hd]
    rfl
  have hm : Lexer.matchChar
      { l with current := l.current + 1, column := l.column + 1 } '-' =
      (true, { l with current := l.current + 1 + 1, column := l.column + 1 + 1 }) :=
    matchChar_eq_of_head '-'
      (show List.drop (l.current + 1) l.source = '-' :: rest from drop_succ_of_cons hd) rfl
  rw [Lexer.scanToken]
  simp +decide [Lexer.advance, ha, hm]

theorem scanToken_newline (l : Lexer) {rest : List Char}
    (hd : l.source.drop l.current = '\n' :: rest) :
    l.scanToken = .ok { l with current := l.current + 1, line := l.line + 1, column := 1 } := by
  have ha : l.source[l.current]?.getD nulChar = '\n' := by
    rw [← List.head?_drop, hd]
    rfl
  rw [Lexer.scanToken]
  simp +decide [Lexer.advance, ha]

theorem scanToken_space (l : Lexer) {rest : List Char}
    (hd : l.source.drop l.current = ' ' :: rest) :
    l.scanToken = .ok { l with current := l.current + 1, column := l.column + 1 } := by
  have ha : l.source[l.current]?.getD nulChar = ' ' := by
    rw [← List.head?_drop, hd]
    rfl
  rw [Lexer.scanToken]
  simp +decide [Lexer.advance, ha]

theorem scanToken_cr (l : Lexer) {rest : List Char}
    (hd : l.source.drop l.current = '\r' :: rest) :
    l.scanToken = .ok { l with current := l.current + 1, column := l.column + 1 } := by
  have ha : l.source[l.current]?.getD nulChar = '\r' := by
    rw [← List.head?_drop, hd]
    rfl
  rw [Lexer.scanToken]
  simp +decide [Lexer.advance, ha]

theorem scanToken_tab (l : Lexer) {rest : List Char}
    (hd : l.source.drop l.current = '\t' :: rest) :
    l.scanToken = .ok { l with current := l.current + 1, column := l.column + 1 } := by
  have ha : l.source[l.current]?.getD nulChar = '\t' := by
    rw [← List.head?_drop, hd]
    rfl
  rw [Lexer.scanToken]
  simp +decide [Lexer.advance, ha]

theorem scanToken_bang_err (l : Lexer) {rest : List Char}
    (hd : l.source.drop l.current = '!' :: rest) (hr : rest.head? ≠ some '=') :
    l.scanToken = .err (.unexpectedChar l.line '!') := by
  have ha : l.source[l.current]?.getD nulChar = '!' := by
    rw [← List.head?_drop, hd]
    rfl
  have hm : Lexer.matchChar
      { l with current := l.current + 1, column := l.column + 1 } '=' =
      (false, { l with current := l.current + 1, column := l.column + 1 }) := by
    rcases rest with _ | ⟨c2, r2⟩
    · exact matchChar_eq_of_nil '='
        (show List.drop (l.current + 1) l.source = [] from drop_succ_of_cons hd)
    · exact matchChar_eq_of_head_ne '='
        (show List.drop (l.current + 1) l.source = c2 :: r2 from drop_succ_of_cons hd)
        (by simpa using hr)
  rw [Lexer.scanToken]
  simp +decide [Lexer.advance, ha, hm]

theorem scanToken_tilde_err (l : Lexer) {rest : List Char}
    (hd : l.source.drop l.current = '~' :: rest) (hr : rest.head? ≠ some '=') :
    l.scanToken = .err (.unexpectedTilde l.line) := by
  have ha : l.source[l.current]?.getD nulChar = '~' := by
    rw [← List.head?_drop, hd]
    rfl
  have hm : Lexer.matchChar
      { l with current := l.current + 1, column := l.column + 1 } '=' =
      (false, { l with current := l.current + 1, column := l.column + 1 }) := by
    rcases rest with _ | ⟨c2, r2⟩
    · exact matchChar_eq_of_nil '='
        (show List.drop (l.current + 1) l.source = [] from drop_succ_of_cons hd)
    · exact matchChar_eq_of_head_ne '='
        (show List.drop (l.current + 1) l.source = c2 :: r2 from drop_succ_of_cons hd)
        (by simpa using hr)
  rw [Lexer.scanToken]
  simp +decide [Lexer.advance, ha, hm]

theorem scanToken_question_err (l : Lexer) {rest : List Char}
    (hd : l.source.drop l.current = '?' :: rest)
    (hr1 : rest.head? ≠ some '.') (hr2 : rest.head? ≠ some '?') :
    l.scanToken = .err (.unexpectedChar l.line '?') := by
  have ha : l.source[l.current]?.getD nulChar = '?' := by
    rw [← List.head?_drop, hd]
    rfl
  have hm1 : Lexer.matchChar
      { l with current := l.current + 1, column := l.column + 1 } '.' =
      (false, { l with current := l.current + 1, column := l.column + 1 }) := by
    rcases rest with _ | ⟨c2, r2⟩
    · exact matchChar_eq_of_nil '.'
        (show List.drop (l.current + 1) l.source = [] from drop_succ_of_cons hd)
    · exact matchChar_eq_of_head_ne '.'
        (show List.drop (l.current + 1) l.source = c2 :: r2 from drop_succ_of_cons hd)
        (by simpa using hr1)
  have hm2 : Lexer.matchChar
      { l with current := l.current + 1, column := l.column + 1 } '?' =
      (false, { l with current := l.current + 1, column := l.column + 1 }) := by
    rcases rest with _ | ⟨c2, r2⟩
    · exact matchChar_eq_of_nil '?'
        (show List.drop (l.current + 1) l.source = [] from drop_succ_of_cons hd)
    · exact matchChar_eq_of_head_ne '?'
        (show List.drop (l.current + 1) l.source = c2 :: r2 from drop_succ_of_cons hd)
        (by simpa using hr2)
  rw [Lexer.scanToken]
  simp +decide [Lexer.advance, ha, hm1, hm2]

/-! ### ConvertNumber lemmas -/

theorem digitVal_of_isDigit {c : Char} (h : isDigit c = true) :
    digitVal c = some (c.toNat - '0'.toNat) := by
  rw [digitVal, if_pos (of_decide_eq_true h)]

theorem parseUintGo_spec (base : Nat) :
    ∀ (ds : List Char) (n : Nat),
      (∀ c ∈ ds, digitVal c = some (c.toNat - '0'.toNat) ∧ c.toNat - '0'.toNat < base) →
      parseUintDigits.go base ds n =
        some (ds.foldl (fun m c => m * base + (c.toNat - '0'.toNat)) n) := by
  intro ds
  induction ds with
  | nil => intro n h; rfl
  | cons c t ih =>
    intro n h
    obtain ⟨h1, h2⟩ := h c (by simp)
    rw [parseUintDigits.go, h1]
    simp only [if_pos h2, List.foldl_cons]
    exact ih _ (fun c2 hc2 => h c2 (by simp [hc2]))

theorem parseUintGo_fail (base : Nat) :
    ∀ (ds : List Char) (n : Nat),
      (∀ c ∈ ds, isDigit c = true) →
      (∃ c ∈ ds, ¬ (c.toNat - '0'.toNat < base)) →
      parseUintDigits.go base ds n = none := by
  intro ds
  induction ds with
  | nil => intro n _ hex; simp at hex
  | cons c t ih =>
    intro n hall hex
    rw [parseUintDigits.go, digitVal_of_isDigit (hall c (by simp))]
    by_cases hc : c.toNat - '0'.toNat < base
    · simp only [if_pos hc]
      refine ih _ (fun c2 hc2 => hall c2 (by simp [hc2])) ?_
      obtain ⟨c2, hmem, hbad⟩ := hex
      rcases List.mem_cons.1 hmem with rfl | hmem2
      · exact absurd hc hbad
      · exact ⟨c2, hmem2, hbad⟩
    · simp only [if_neg hc]

theorem formatInt10_ofNat (n : Nat) : formatInt10 (Int.ofNat n) = Nat.repr n := by
  rw [formatInt10, if_neg (Int.not_lt.mpr (show (0 : Int) ≤ Int.ofNat n from Int.ofNat_nonneg n))]
  simp

theorem goParseInt_of_valid {base : Nat} {ds : List Char} (hne : ds ≠ [])
    (hd : ∀ c ∈ ds, digitVal c = some (c.toNat - '0'.toNat) ∧
      c.toNat - '0'.toNat < base ∧ c ≠ '+' ∧ c ≠ '-')
    (hb : digitsVal base ds ≤ 2 ^ 63 - 1) :
    goParseInt ds base = some (Int.ofNat (digitsVal base ds)) := by
  rcases ds with _ | ⟨c, t⟩
  · exact absurd rfl hne
  obtain ⟨h1, h2, h3, h4⟩ := hd c (by simp)
  rw [goParseInt]
  simp only [if_neg h3, if_neg h4]
  have hp : parseUintDigits base (c :: t) = parseUintDigits.go base (c :: t) 0 := rfl
  rw [hp, parseUintGo_spec base _ 0 (fun c2 hc2 => ⟨(hd c2 hc2).1, (hd c2 hc2).2.1⟩)]
  simp only [digitsVal] at hb ⊢
  simp only [if_pos hb]

theorem goParseInt_none_of_bad {base : Nat} {ds : List Char}
    (hd : ∀ c ∈ ds, isDigit c = true)
    (hbad : ∃ c ∈ ds, ¬ (c.toNat - '0'.toNat < base)) :
    goParseInt ds base = none := by
  rcases ds with _ | ⟨c, t⟩
  · rfl
  have hdig := hd c (by simp)
  have h3 : c ≠ '+' := by intro h; subst h; exact absurd hdig (by decide)
  have h4 : c ≠ '-' := by intro h; subst h; exact absurd hdig (by decide)
  rw [goParseInt]
  simp only [if_neg h3, if_neg h4]
  have hp : parseUintDigits base (c :: t) = parseUintDigits.go base (c :: t) 0 := rfl
  rw [hp, parseUintGo_fail base _ 0 hd hbad]

/-- The ten decimal digit characters. -/
def digitChars : List Char := ['0', '1', '2', '3', '4', '5', '6', '7', '8', '9']

/-- The eight octal digit characters. -/
def octChars : List Char := ['0', '1', '2', '3', '4', '5', '6', '7']

theorem mem_digitChars_isDigit {c : Char} (h : c ∈ digitChars) : isDigit c = true := by
  fin_cases h <;> decide

theorem mem_digitChars_not_bin {c : Char} (h : c ∈ digitChars)
    (h2 : ¬ (c = '0' ∨ c = '1')) : ¬ (c.toNat - '0'.toNat < 2) := by
  fin_cases h <;>
    first
      | exact absurd (Or.inl rfl) h2
      | exact absurd (Or.inr rfl) h2
      | decide

theorem mem_digitChars_not_oct {c : Char} (h : c ∈ digitChars)
    (h2 : c ∉ octChars) : ¬ (c.toNat - '0'.toNat < 8) := by
  fin_cases h <;>
    first
      | exact absurd (by decide) h2
      | decide

theorem convertNumber_bin_ok {ds : List Char} (hne : ds ≠ [])
    (hd : ∀ c ∈ ds, c = '0' ∨ c = '1') (hb : digitsVal 2 ds < 2 ^ 63) :
    ConvertNumber (String.mk ('0' :: 'b' :: ds)) = .ok (Nat.repr (digitsVal 2 ds)) := by
  have hparse : goParseInt ds 2 = some (Int.ofNat (digitsVal 2 ds)) :=
    goParseInt_of_valid hne
      (fun c hc => by
        rcases hd c hc with rfl | rfl <;>
          exact ⟨by decide, by decide, by decide, by decide⟩)
      (by omega)
  have H : ¬ ((String.mk ('0' :: 'b' :: ds)).data.length < 2) := by
    show ¬ (ds.length + 1 + 1 < 2); omega
  have hstep : ConvertNumber (String.mk ('0' :: 'b' :: ds)) =
      match goParseInt ds 2 with
      | none => Except.error ("invalid binary literal: " ++ String.mk ('0' :: 'b' :: ds))
      | some n => Except.ok (formatInt10 n) := by
    rw [ConvertNumber, if_neg H]
    rfl
  rw [hstep, hparse]
  show Except.ok (formatInt10 (Int.ofNat (digitsVal 2 ds))) = _
  rw [formatInt10_ofNat]

theorem convertNumber_oct_ok {ds : List Char} (hne : ds ≠ [])
    (hd : ∀ c ∈ ds, c ∈ octChars) (hb : digitsVal 8 ds < 2 ^ 63) :
    ConvertNumber (String.mk ('0' :: 'o' :: ds)) = .ok (Nat.repr (digitsVal 8 ds)) := by
  have hparse : goParseInt ds 8 = some (Int.ofNat (digitsVal 8 ds)) :=
    goParseInt_of_valid hne
      (fun c hc => by
        have := hd c hc
        fin_cases this <;>
          exact ⟨by decide, by decide, by decide, by decide⟩)
      (by omega)
  have H : ¬ ((String.mk ('0' :: 'o' :: ds)).data.length < 2) := by
    show ¬ (ds.length + 1 + 1 < 2); omega
  have hstep : ConvertNumber (String.mk ('0' :: 'o' :: ds)) =
      match goParseInt ds 8 with
      | none => Except.error ("invalid octal literal: " ++ String.mk ('0' :: 'o' :: ds))
      | some n => Except.ok (formatInt10 n) := by
    rw [ConvertNumber, if_neg H]
    rfl
  rw [hstep, hparse]
  show Except.ok (formatInt10 (Int.ofNat (digitsVal 8 ds))) = _
  rw [formatInt10_ofNat]

theorem convertNumber_bin_err {ds : List Char}
    (hd : ∀ c ∈ ds, c ∈ digitChars)
    (hbad : ∃ c ∈ ds, ¬ (c = '0' ∨ c = '1')) :
    ConvertNumber (String.mk ('0' :: 'b' :: ds)) =
      .error ("invalid binary literal: " ++ String.mk ('0' :: 'b' :: ds)) := by
  have H : ¬ ((String.mk ('0' :: 'b' :: ds)).data.length < 2) := by
    show ¬ (ds.length + 1 + 1 < 2); omega
  have hstep : ConvertNumber (String.mk ('0' :: 'b' :: ds)) =
      match goParseInt ds 2 with
      | none => Except.error ("invalid binary literal: " ++ String.mk ('0' :: 'b' :: ds))
      | some n => Except.ok (formatInt10 n) := by
    rw [ConvertNumber, if_neg H]
    rfl
  obtain ⟨c, hc, hcbad⟩ := hbad
  rw [hstep, goParseInt_none_of_bad (fun c2 hc2 => mem_digitChars_isDigit (hd c2 hc2))
    ⟨c, hc, mem_digitChars_not_bin (hd c hc) hcbad⟩]

theorem convertNumber_oct_err {ds : List Char}
    (hd : ∀ c ∈ ds, c ∈ digitChars)
    (hbad : ∃ c ∈ ds, c ∉ octChars) :
    ConvertNumber (String.mk ('0' :: 'o' :: ds)) =
      .error ("invalid octal literal: " ++ String.mk ('0' :: 'o' :: ds)) := by
  have H : ¬ ((String.mk ('0' :: 'o' :: ds)).data.length < 2) := by
    show ¬ (ds.length + 1 + 1 < 2); omega
  have hstep : ConvertNumber (String.mk ('0' :: 'o' :: ds)) =
      match goParseInt ds 8 with
      | none => Except.error ("invalid octal literal: " ++ String.mk ('0' :: 'o' :: ds))
      | some n => Except.ok (formatInt10 n) := by
    rw [ConvertNumber, if_neg H]
    rfl
  obtain ⟨c, hc, hcbad⟩ := hbad
  rw [hstep, goParseInt_none_of_bad (fun c2 hc2 => mem_digitChars_isDigit (hd c2 hc2))
    ⟨c, hc, mem_digitChars_not_oct (hd c hc) hcbad⟩]

theorem convertNumber_hex (s : List Char) :
    ConvertNumber (String.mk ('0' :: 'x' :: s)) = .ok (String.mk ('0' :: 'x' :: s)) := by
  have H : ¬ ((String.mk ('0' :: 'x' :: s)).data.length < 2) := by
    show ¬ (s.length + 1 + 1 < 2); omega
  rw [ConvertNumber, if_neg H]
  rfl

theorem scanToken_dquote (l : Lexer) {rest : List Char}
    (hd : l.source.drop l.current = dquote :: rest) :
    l.scanToken =
      Lexer.string ({ l with current := l.current + 1, column := l.column + 1 } : Lexer) dquote := by
  have ha : l.source[l.current]?.getD nulChar = dquote := by
    rw [← List.head?_drop, hd]
    rfl
  rw [Lexer.scanToken]
  simp +decide [Lexer.advance, ha]

theorem scanToken_squote (l : Lexer) {rest : List Char}
    (hd : l.source.drop l.current = squote :: rest) :
    l.scanToken =
      Lexer.string ({ l with current := l.current + 1, column := l.column + 1 } : Lexer) squote := by
  have ha : l.source[l.current]?.getD nulChar = squote := by
    rw [← List.head?_drop, hd]
    rfl
  rw [Lexer.scanToken]
  simp +decide [Lexer.advance, ha]

theorem scanToken_btick (l : Lexer) {rest : List Char}
    (hd : l.source.drop l.current = btick :: rest) :
    l.scanToken =
      Lexer.templateString ({ l with current := l.current + 1, column := l.column + 1 } : Lexer) := by
  have ha : l.source[l.current]?.getD nulChar = btick := by
    rw [← List.head?_drop, hd]
    rfl
  rw [Lexer.scanToken]
  simp +decide [Lexer.advance, ha]

theorem scanToken_lbracket_ml (l : Lexer) {c2 : Char} {rest : List Char}
    (hd : l.source.drop l.current = '[' :: c2 :: rest) (hc2 : c2 = '[' ∨ c2 = '=') :
    l.scanToken =
      Lexer.multilineString ({ l with current := l.current + 1, column := l.column + 1 } : Lexer) := by
  have ha : l.source[l.current]?.getD nulChar = '[' := by
    rw [← List.head?_drop, hd]
    rfl
  have hp : Lexer.peek ({ l with current := l.current + 1, column := l.column + 1 } : Lexer) = c2 :=
    peek_cons (show List.drop (l.current + 1) l.source = c2 :: rest from drop_succ_of_cons hd)
  rcases hc2 with rfl | rfl <;>
    (rw [Lexer.scanToken]; simp +decide [Lexer.advance, ha, hp])

theorem scanToken_bang_eq (l : Lexer) {rest : List Char}
    (hd : l.source.drop l.current = '!' :: '=' :: rest) :
    l.scanToken = .ok (Lexer.addToken
      ({ l with current := l.current + 1 + 1, column := l.column + 1 + 1 } : Lexer) .TOKEN_NEQ) := by
  have ha : l.source[l.current]?.getD nulChar = '!' := by
    rw [← List.head?_drop, hd]
    rfl
  have hm : Lexer.matchChar
      { l with current := l.current + 1, column := l.column + 1 } '=' =
      (true, { l with current := l.current + 1 + 1, column := l.column + 1 + 1 }) :=
    matchChar_eq_of_head '='
      (show List.drop (l.current + 1) l.source = '=' :: rest from drop_succ_of_cons hd) rfl
  rw [Lexer.scanToken]
  simp +decide [Lexer.advance, ha, hm]

theorem scanToken_tilde_eq (l : Lexer) {rest : List Char}
    (hd : l.source.drop l.current = '~' :: '=' :: rest) :
    l.scanToken = .ok (Lexer.addToken
      ({ l with current := l.current + 1 + 1, column := l.column + 1 + 1 } : Lexer) .TOKEN_NEQ) := by
  have ha : l.source[l.current]?.getD nulChar = '~' := by
    rw [← List.head?_drop, hd]
    rfl
  have hm : Lexer.matchChar
      { l with current := l.current + 1, column := l.column + 1 } '=' =
      (true, { l with current := l.current + 1 + 1, column := l.column + 1 + 1 }) :=
    matchChar_eq_of_head '='
      (show List.drop (l.current + 1) l.source = '=' :: rest from drop_succ_of_cons hd) rfl
  rw [Lexer.scanToken]
  simp +decide [Lexer.advance, ha, hm]

theorem templateString_no_panic (l : Lexer) : l.templateString ≠ .panic := by
  rw [Lexer.templateString]
  simp only
  split_ifs <;> intro h <;> cases h

/-! ### Assembly helpers for whole-input tokenize runs -/

theorem data_mk (l : List Char) : (String.mk l).data = l := rfl

theorem newLexer_restart (src : String) :
    ({ NewLexer src with start := (NewLexer src).current, startColumn := (NewLexer src).column } : Lexer) =
      ({ source := src.data, tokens := [], start := 0, current := 0, line := 1, column := 1, startColumn := 1 } : Lexer) := rfl

theorem tokenizeLoop_step (fuel : Nat) (l : Lexer) (hend : l.isAtEnd = false) :
    Lexer.tokenizeLoop (fuel + 1) l =
      match Lexer.scanToken { l with start := l.current, startColumn := l.column } with
      | .ok l' => Lexer.tokenizeLoop fuel l'
      | out => out := by
  rw [Lexer.tokenizeLoop, if_neg (by simp [hend])]

theorem tokenizeLoop_done (fuel : Nat) (l : Lexer) (hend : l.isAtEnd = true) :
    Lexer.tokenizeLoop (fuel + 1) l = .ok l := by
  rw [Lexer.tokenizeLoop, if_pos hend]

/-! ### Exact error line of an unterminated multiline string -/

/-- Number of newline characters in a character list: the amount by which
the lexer's line counter grows while scanning it to the end. -/
def countNl : List Char → Nat
  | [] => 0
  | c :: t => (if c = '\n' then 1 else 0) + countNl t

theorem countNl_replicateEq (n : Nat) (t : List Char) :
    countNl (List.replicate n '=' ++ t) = countNl t := by
  induction n with
  | zero => rfl
  | succ n ih =>
    rw [List.replicate_succ, List.cons_append, countNl, if_neg (by decide), ih, Nat.zero_add]

theorem mlCloseLoop_err_line (k sl : Nat) :
    ∀ (fuel : Nat) (l : Lexer) (e : LexErr),
      Lexer.mlCloseLoop k sl fuel l = .err e →
      e = .unterminatedMultiline (l.line + countNl (l.source.drop l.current)) sl := by
  intro fuel
  induction fuel with
  | zero => intro l e h; cases h
  | succ fuel ih =>
    intro l e h
    rw [Lexer.mlCloseLoop] at h
    by_cases hend : l.isAtEnd
    · rw [if_pos hend] at h
      have hnil : l.source.drop l.current = [] := by
        rw [List.drop_eq_nil_iff]
        exact (isAtEnd_true_iff l).1 hend
      rw [hnil]
      simp only [countNl, Nat.add_zero]
      exact (LexOut.err.inj h).symm
    · rw [if_neg hend] at h
      simp only at h
      have hlt : l.current < l.source.length := (isAtEnd_false_iff l).1 (by simpa using hend)
      obtain ⟨c, t, hd⟩ : ∃ c t, l.source.drop l.current = c :: t := by
        rcases hdd : l.source.drop l.current with _ | ⟨c, t⟩
        · rw [List.drop_eq_nil_iff] at hdd
          omega
        · exact ⟨c, t, rfl⟩
      have hpk := peek_cons hd
      set l1 := if l.peek = '\n' then { l with line := l.line + 1, column := 0 } else l with hl1
      have hpk1 : l1.peek = l.peek := by
        rw [hl1]
        split_ifs
        · exact peek_lineBump l
        · rfl
      by_cases hbr : l1.peek = ']'
      · rw [if_pos hbr] at h
        have hpkl : l.peek = ']' := hpk1.symm.trans hbr
        have hceq : c = ']' := hpk.symm.trans hpkl
        have hl1eq : l1 = l := by
          rw [hl1, if_neg]
          rw [hpkl]
          decide
        set r := Lexer.eqMatchLoop k (((l1.advance).2).source.length + 1) ((l1.advance).2) 0 with hr
        by_cases hcl : r.2 = k ∧ r.1.peek = ']'
        · rw [if_pos hcl] at h
          cases h
        · rw [if_neg hcl] at h
          have hrx := eqMatchLoop_exact k (((l1.advance).2).source.length + 1) ((l1.advance).2) 0
            (by simp only [Lexer.advance]; omega)
          have hline : r.1.line = ((l1.advance).2).line := by rw [hr, hrx]
          have hsrc : r.1.source = ((l1.advance).2).source := by rw [hr, hrx]
          have hih := ih ({ r.1 with current := l1.current + 1 } : Lexer) e h
          have harg : ({ r.1 with current := l1.current + 1 } : Lexer).line +
              countNl (({ r.1 with current := l1.current + 1 } : Lexer).source.drop
                ({ r.1 with current := l1.current + 1 } : Lexer).current) =
              l.line + countNl (l.source.drop l.current) := by
            show r.1.line + countNl (r.1.source.drop (l1.current + 1)) =
              l.line + countNl (l.source.drop l.current)
            rw [hline, hsrc, hl1eq]
            show l.line + countNl (l.source.drop (l.current + 1)) =
              l.line + countNl (l.source.drop l.current)
            rw [drop_succ_of_cons hd, hd, hceq]
            rw [countNl, if_neg (by decide : ¬ (']' : Char) = '\n')]
            omega
          rw [hih, harg]
      · rw [if_neg hbr] at h
        have hih := ih ((l1.advance).2) e h
        have harg : ((l1.advance).2).line +
            countNl (((l1.advance).2).source.drop ((l1.advance).2).current) =
            l.line + countNl (l.source.drop l.current) := by
          by_cases hnl : l.peek = '\n'
          · have hl1b : l1 = ({ l with line := l.line + 1, column := 0 } : Lexer) := by
              rw [hl1, if_pos hnl]
            rw [hl1b]
            show l.line + 1 + countNl (l.source.drop (l.current + 1)) =
              l.line + countNl (l.source.drop l.current)
            rw [drop_succ_of_cons hd, hd]
            have hcnl : c = '\n' := hpk.symm.trans hnl
            rw [hcnl, countNl, if_pos rfl]
            omega
          · have hl1b : l1 = l := by rw [hl1, if_neg hnl]
            rw [hl1b]
            show l.line + countNl (l.source.drop (l.current + 1)) =
              l.line + countNl (l.source.drop l.current)
            rw [drop_succ_of_cons hd, hd]
            have hcnot : ¬ c = '\n' := fun hcc => hnl (hpk.trans hcc)
            rw [countNl, if_neg hcnot]
            omega
        rw [hih, harg]

theorem multilineString_err_line (l : Lexer) (e : LexErr) (hc : l.current ≤ l.source.length)
    (h : l.multilineString = .err e) :
    e = .unterminatedMultiline (l.line + countNl (l.source.drop l.current)) l.line := by
  rw [Lexer.multilineString] at h
  rw [eqLoop_run l 0 hc] at h
  simp only at h
  set lr : Lexer := ({ l with current := l.current + countEq (l.source.drop l.current), column := l.column + countEq (l.source.drop l.current) } : Lexer) with hlr
  by_cases hbk : lr.peek ≠ '['
  · rw [if_pos hbk] at h
    cases h
  · rw [if_neg hbk] at h
    push_neg at hbk
    obtain ⟨rest, hdec, hrest⟩ := countEq_decomp (l.source.drop l.current)
    set cEq := countEq (l.source.drop l.current) with hce
    have hdropE : l.source.drop (l.current + cEq) = rest := by
      rw [← List.drop_drop, hdec, List.drop_left' (by simp)]
    have hih := mlCloseLoop_err_line _ _ _ ((lr.advance).2) e h
    rw [hih]
    congr 1
    · show lr.line + countNl (lr.source.drop (lr.current + 1)) =
        l.line + countNl (l.source.drop l.current)
      rw [hlr]
      show l.line + countNl (l.source.drop (l.current + cEq + 1)) =
        l.line + countNl (l.source.drop l.current)
      rcases hrt : rest with _ | ⟨c2, tail⟩
      · rw [hrt] at hdropE
        have hnul := peek_nil (l := lr) (show lr.source.drop lr.current = [] from by
          rw [hlr]
          exact hdropE)
        rw [hnul] at hbk
        exact absurd hbk (by decide)
      · rw [hrt] at hdropE
        have hc2 : c2 = '[' := by
          have hpkr := peek_cons (l := lr) (show lr.source.drop lr.current = c2 :: tail from by
            rw [hlr]
            exact hdropE)
          exact hpkr.symm.trans hbk
        have hdropT : l.source.drop (l.current + cEq + 1) = tail := drop_succ_of_cons' hdropE
        rw [hdropT]
        rw [show l.source.drop l.current = List.replicate cEq '=' ++ (c2 :: tail) from
          hdec.trans (by rw [hrt])]
        rw [countNl_replicateEq, countNl, if_neg (by rw [hc2]; decide)]
        omega

/-! ### The claims -/

/-- Claim C1: the spec asserts that quoted-string scanning is total and that
the out-of-bounds access in the escape-skipping branch of `Lexer.string` is
unreachable.  This is false: a two-character input consisting of a double
quote followed by a backslash makes `tokenize` perform the out-of-bounds
`l.source[l.current]` read (modelled as `.panic`) instead of returning the
"unterminated string" error. -/
theorem c1_backslash_eof_panics : tokenize (String.mk [dquote, bslash]) = .panic := by
  decide

/-- Claim C2 (counterexample): the input `--[[` opens a multiline comment
that is never closed, yet `tokenize` succeeds with just the EOF token
instead of returning a lexical error. -/
theorem c2_unterminated_comment_ok :
    tokenize (String.mk ['-', '-', '[', '[']) = .ok [⟨.TOKEN_EOF, "", 1, 5⟩] := by
  decide

/-- Claim C2 (amended): for every input consisting of a multiline comment
opener `--[` + k `=` + `[` whose close sequence `]` + k `=` + `]` never
occurs in the remaining text, `tokenize` does not report an error: the
comment is silently consumed to end of input and only the EOF token is
returned. -/
theorem c2_amended_unterminated_comment_silent (k : Nat) (s : List Char)
    (hcs : containsSeq (closeSeq k) s = false) :
    ∃ t, tokenize (String.mk ('-' :: '-' :: '[' :: (List.replicate k '=' ++ '[' :: s))) =
      .ok [t] ∧ t.type = .TOKEN_EOF := by
  have hf : (String.mk ('-' :: '-' :: '[' :: (List.replicate k '=' ++ '[' :: s))).data.length =
      k + s.length + 2 + 1 + 1 := by
    show ('-' :: '-' :: '[' :: (List.replicate k '=' ++ '[' :: s)).length = k + s.length + 2 + 1 + 1
    simp only [List.length_cons, List.length_append, List.length_replicate]
    omega
  have hend0 : (NewLexer (String.mk ('-' :: '-' :: '[' :: (List.replicate k '=' ++ '[' :: s)))).isAtEnd = false := by
    rw [isAtEnd_false_iff]
    show 0 < (String.mk ('-' :: '-' :: '[' :: (List.replicate k '=' ++ '[' :: s))).data.length
    rw [hf]
    omega
  have hscan := @scanToken_ddash
    (⟨'-' :: '-' :: '[' :: (List.replicate k '=' ++ '[' :: s), [], 0, 0, 1, 1, 1⟩ : Lexer)
    ('[' :: (List.replicate k '=' ++ '[' :: s)) rfl
  obtain ⟨hc1, hc2, hc3, hc4⟩ := comment_noclose
    (⟨'-' :: '-' :: '[' :: (List.replicate k '=' ++ '[' :: s), [], 0, 2, 1, 3, 1⟩ : Lexer)
    k s rfl hcs
  have hex : ∃ CL, Lexer.tokenizeLoop
      ((String.mk ('-' :: '-' :: '[' :: (List.replicate k '=' ++ '[' :: s))).data.length + 1)
      (NewLexer (String.mk ('-' :: '-' :: '[' :: (List.replicate k '=' ++ '[' :: s)))) =
      .ok CL ∧ CL.tokens = [] := by
    rw [hf, tokenizeLoop_step _ _ hend0, newLexer_restart, data_mk, hscan]
    have hend2 : (Lexer.comment
        (⟨'-' :: '-' :: '[' :: (List.replicate k '=' ++ '[' :: s), [], 0, 2, 1, 3, 1⟩ : Lexer)).isAtEnd = true := by
      rw [Lexer.isAtEnd, decide_eq_true_eq, hc1, hc4]
    refine ⟨_, ?_, hc2.trans rfl⟩
    show Lexer.tokenizeLoop (k + s.length + 2 + 1 + 1)
        (Lexer.comment (⟨'-' :: '-' :: '[' :: (List.replicate k '=' ++ '[' :: s), [], 0, 2, 1, 3, 1⟩ : Lexer)) =
      .ok (Lexer.comment (⟨'-' :: '-' :: '[' :: (List.replicate k '=' ++ '[' :: s), [], 0, 2, 1, 3, 1⟩ : Lexer))
    exact tokenizeLoop_done _ _ hend2
  obtain ⟨CL, hloop, htk⟩ := hex
  refine ⟨⟨.TOKEN_EOF, "", CL.line, CL.column⟩, ?_, rfl⟩
  rw [tokenize, hloop]
  show (.ok (CL.tokens ++ [⟨.TOKEN_EOF, "", CL.line, CL.column⟩]) : TokResult) = _
  rw [htk, List.nil_append]

theorem c2_amended_comment_witness :
    ∃ t, tokenize (String.mk ('-' :: '-' :: '[' :: (List.replicate 0 '=' ++ '[' :: []))) =
      .ok [t] ∧ t.type = .TOKEN_EOF :=
  c2_amended_unterminated_comment_silent 0 [] (by decide)

/-- Claim C3: `ConvertNumber` maps binary and octal literals to the decimal
digit string of their value parsed as a 64-bit signed integer (`0b1011` ↦
`11`, `0o17` ↦ `15`), passes hex literals through unchanged (`0xFF` ↦
`0xFF`), and on a literal whose digits are invalid in its base returns an
error message naming the offending literal. -/
theorem c3_convertNumber_spec :
    ConvertNumber "0b1011" = .ok "11" ∧
    ConvertNumber "0o17" = .ok "15" ∧
    ConvertNumber "0xFF" = .ok "0xFF" ∧
    (∀ ds : List Char, ds ≠ [] → (∀ c ∈ ds, c = '0' ∨ c = '1') →
      digitsVal 2 ds < 2 ^ 63 →
      ConvertNumber (String.mk ('0' :: 'b' :: ds)) = .ok (Nat.repr (digitsVal 2 ds))) ∧
    (∀ ds : List Char, ds ≠ [] → (∀ c ∈ ds, c ∈ octChars) →
      digitsVal 8 ds < 2 ^ 63 →
      ConvertNumber (String.mk ('0' :: 'o' :: ds)) = .ok (Nat.repr (digitsVal 8 ds))) ∧
    (∀ s : List Char,
      ConvertNumber (String.mk ('0' :: 'x' :: s)) = .ok (String.mk ('0' :: 'x' :: s))) ∧
    (∀ ds : List Char, (∀ c ∈ ds, c ∈ digitChars) → (∃ c ∈ ds, ¬ (c = '0' ∨ c = '1')) →
      ConvertNumber (String.mk ('0' :: 'b' :: ds)) =
        .error ("invalid binary literal: " ++ String.mk ('0' :: 'b' :: ds))) ∧
    (∀ ds : List Char, (∀ c ∈ ds, c ∈ digitChars) → (∃ c ∈ ds, c ∉ octChars) →
      ConvertNumber (String.mk ('0' :: 'o' :: ds)) =
        .error ("invalid octal literal: " ++ String.mk ('0' :: 'o' :: ds))) ∧
    ConvertNumber "0b12" = .error "invalid binary literal: 0b12" ∧
    ConvertNumber "0o8" = .error "invalid octal literal: 0o8" := by
  refine ⟨rfl, rfl, rfl, ?_, ?_, convertNumber_hex, ?_, ?_, rfl, rfl⟩
  · exact fun ds h1 h2 h3 => convertNumber_bin_ok h1 h2 h3
  · exact fun ds h1 h2 h3 => convertNumber_oct_ok h1 h2 h3
  · exact fun ds h1 h2 => convertNumber_bin_err h1 h2
  · exact fun ds h1 h2 => convertNumber_oct_err h1 h2

theorem c3_convertNumber_witness :
    ConvertNumber (String.mk ('0' :: 'b' :: ['1', '0'])) = .ok (Nat.repr (digitsVal 2 ['1', '0'])) ∧
    ConvertNumber (String.mk ('0' :: 'o' :: ['7'])) = .ok (Nat.repr (digitsVal 8 ['7'])) ∧
    ConvertNumber (String.mk ('0' :: 'x' :: ['F'])) = .ok (String.mk ('0' :: 'x' :: ['F'])) ∧
    ConvertNumber (String.mk ('0' :: 'b' :: ['2'])) =
      .error ("invalid binary literal: " ++ String.mk ('0' :: 'b' :: ['2'])) ∧
    ConvertNumber (String.mk ('0' :: 'o' :: ['9'])) =
      .error ("invalid octal literal: " ++ String.mk ('0' :: 'o' :: ['9'])) :=
  ⟨c3_convertNumber_spec.2.2.2.1 ['1', '0'] (by decide) (by decide) (by decide),
   c3_convertNumber_spec.2.2.2.2.1 ['7'] (by decide) (by decide) (by decide),
   c3_convertNumber_spec.2.2.2.2.2.1 ['F'],
   c3_convertNumber_spec.2.2.2.2.2.2.1 ['2'] (by decide) (by decide),
   c3_convertNumber_spec.2.2.2.2.2.2.2.1 ['9'] (by decide) (by decide)⟩

/-- Claim C4: a back-quoted template string that reaches end of input before
its closing back-quote — including inside a still-open interpolation —
yields the "unterminated template string" error and nothing else; when
scanning succeeds, exactly one `TOKEN_TEMPLATE_STRING` token is appended
whose raw value keeps both back-quotes (and hence any literal interpolation
markers) verbatim. -/
theorem c4_template_string_spec :
    (∀ (l : Lexer) (rest : List Char) (e : LexErr),
      l.source.drop l.current = btick :: rest → l.scanToken = .err e →
      ∃ m, e = .unterminatedTemplate m) ∧
    (∀ (l : Lexer) (rest : List Char) (l' : Lexer),
      l.source.drop l.current = btick :: rest → l.scanToken = .ok l' →
      ∃ ln, l'.tokens = l.tokens ++
        [⟨.TOKEN_TEMPLATE_STRING,
          String.mk (btick :: goSlice l.source (l.current + 1) (l'.current - 1) ++ [btick]),
          ln, l.startColumn⟩]) ∧
    (∀ (l : Lexer) (rest : List Char),
      l.source.drop l.current = btick :: rest →
      (∃ l', l.scanToken = .ok l') ∨ (∃ e, l.scanToken = .err e)) ∧
    tokenize (String.mk [btick, '$', '{', 'x']) = .err (.unterminatedTemplate 1) ∧
    tokenize (String.mk [btick, 'a']) = .err (.unterminatedTemplate 1) ∧
    tokenize (String.mk [btick, '$', '{', 'x', '}', btick]) =
      .ok [⟨.TOKEN_TEMPLATE_STRING, String.mk [btick, '$', '{', 'x', '}', btick], 1, 1⟩,
           ⟨.TOKEN_EOF, "", 1, 7⟩] := by
  refine ⟨?_, ?_, ?_, by decide, by decide, by decide⟩
  · intro l rest e hd h
    rw [scanToken_btick l hd] at h
    obtain ⟨m, hm, _⟩ := templateString_err _ _ h
    exact ⟨m, hm⟩
  · intro l rest l' hd h
    rw [scanToken_btick l hd] at h
    obtain ⟨_, _, _, _, _, ln, b6⟩ := templateString_ok _ _ h
    exact ⟨ln, b6⟩
  · intro l rest hd
    rcases hv : l.scanToken with l2 | e2 | _ | _
    · exact Or.inl ⟨l2, rfl⟩
    · exact Or.inr ⟨e2, rfl⟩
    · rw [scanToken_btick l hd] at hv
      exact absurd hv (templateString_no_panic _)
    · rw [scanToken_btick l hd] at hv
      exact absurd hv (templateString_no_diverge _)

theorem c4_template_string_witness :
    ∃ m, LexErr.unterminatedTemplate 2 = .unterminatedTemplate m :=
  c4_template_string_spec.1 (⟨[btick, '\n'], [], 0, 0, 1, 1, 1⟩ : Lexer) ['\n']
    (.unterminatedTemplate 2) rfl (by decide)

/-- Claim C5 (counterexample): a template string that starts on line 1 and is
never terminated reports line 2 — the line reached at end of input — not the
line the string started on, refuting the claim for template strings. -/
theorem c5_template_line_counterexample :
    tokenize (String.mk [btick, '\n']) = .err (.unterminatedTemplate 2) ∧
    (NewLexer (String.mk [btick, '\n'])).line = 1 := by
  decide

/-- Claim C5 (amended): the line reported by an unterminated-construct error
depends on the construct.  A quoted string reports the line it starts on; an
unterminated multiline string reports the line reached at end of input (the
start line plus the number of newlines in the remaining source), carrying
its start line only as a separate payload; an unterminated template string
reports a line no smaller than (but possibly beyond) its start line.  The
concrete line-5 example of the spec does hold for quoted strings, and a
multiline string opened on line 1 with one following newline reports line 2
with start-line payload 1. -/
theorem c5_amended_error_lines :
    (∀ (l : Lexer) (rest : List Char) (q : Char) (e : LexErr),
      l.source.drop l.current = q :: rest → q = dquote ∨ q = squote →
      l.scanToken = .err e → e = .unterminatedString l.line) ∧
    (∀ (l : Lexer) (c2 : Char) (rest : List Char) (e : LexErr),
      l.source.drop l.current = '[' :: c2 :: rest → c2 = '[' ∨ c2 = '=' →
      l.scanToken = .err e →
      e = .unterminatedMultiline (l.line + countNl (l.source.drop (l.current + 1))) l.line) ∧
    (∀ (l : Lexer) (rest : List Char) (e : LexErr),
      l.source.drop l.current = btick :: rest →
      l.scanToken = .err e → ∃ m, e = .unterminatedTemplate m ∧ l.line ≤ m) ∧
    tokenize (String.mk ['\n', '\n', '\n', '\n', dquote, 'a', '\n', 'x']) =
      .err (.unterminatedString 5) ∧
    tokenize (String.mk ['[', '=', '[', '\n']) = .err (.unterminatedMultiline 2 1) ∧
    tokenize (String.mk ['\n', '[', '=', '[', 'a', '\n', '\n', 'b']) =
      .err (.unterminatedMultiline 4 2) := by
  refine ⟨?_, ?_, ?_, by decide, by decide, by decide⟩
  · intro l rest q e hd hq h
    rcases hq with rfl | rfl
    · rw [scanToken_dquote l hd] at h
      have he := string_err _ _ _ h
      exact he
    · rw [scanToken_squote l hd] at h
      have he := string_err _ _ _ h
      exact he
  · intro l c2 rest e hd hc2 h
    rw [scanToken_lbracket_ml l hd hc2] at h
    have hlt := drop_cons_lt hd
    have hc : ({ l with current := l.current + 1, column := l.column + 1 } : Lexer).current ≤
        ({ l with current := l.current + 1, column := l.column + 1 } : Lexer).source.length := by
      show l.current + 1 ≤ l.source.length
      omega
    have he := multilineString_err_line _ _ hc h
    exact he
  · intro l rest e hd h
    rw [scanToken_btick l hd] at h
    have he := templateString_err _ _ h
    exact he

theorem c5_error_lines_witness :
    LexErr.unterminatedString 1 =
      .unterminatedString (⟨[dquote, 'a'], [], 0, 0, 1, 1, 1⟩ : Lexer).line :=
  c5_amended_error_lines.1 (⟨[dquote, 'a'], [], 0, 0, 1, 1, 1⟩ : Lexer) ['a'] dquote
    (.unterminatedString 1) rfl (Or.inl rfl) (by decide)

/-- Claim C6: a bare `!`, `~`, or `?` that does not complete a recognized
digraph is a lexical error carrying the line number, while `!=` and `~=`
both lex to the same `TOKEN_NEQ` token kind and `?.`/`??` complete their
digraphs. -/
theorem c6_digraph_spec :
    (∀ (l : Lexer) (rest : List Char), l.source.drop l.current = '!' :: rest →
      rest.head? ≠ some '=' → l.scanToken = .err (.unexpectedChar l.line '!')) ∧
    (∀ (l : Lexer) (rest : List Char), l.source.drop l.current = '~' :: rest →
      rest.head? ≠ some '=' → l.scanToken = .err (.unexpectedTilde l.line)) ∧
    (∀ (l : Lexer) (rest : List Char), l.source.drop l.current = '?' :: rest →
      rest.head? ≠ some '.' → rest.head? ≠ some '?' →
      l.scanToken = .err (.unexpectedChar l.line '?')) ∧
    (∀ (l : Lexer) (rest : List Char), l.source.drop l.current = '!' :: '=' :: rest →
      ∃ l', l.scanToken = .ok l' ∧
        ∃ t, l'.tokens = l.tokens ++ [t] ∧ t.type = .TOKEN_NEQ) ∧
    (∀ (l : Lexer) (rest : List Char), l.source.drop l.current = '~' :: '=' :: rest →
      ∃ l', l.scanToken = .ok l' ∧
        ∃ t, l'.tokens = l.tokens ++ [t] ∧ t.type = .TOKEN_NEQ) ∧
    tokenize "!=" = .ok [⟨.TOKEN_NEQ, "!=", 1, 1⟩, ⟨.TOKEN_EOF, "", 1, 3⟩] ∧
    tokenize "~=" = .ok [⟨.TOKEN_NEQ, "~=", 1, 1⟩, ⟨.TOKEN_EOF, "", 1, 3⟩] ∧
    tokenize "!" = .err (.unexpectedChar 1 '!') ∧
    tokenize "~" = .err (.unexpectedTilde 1) ∧
    tokenize "?" = .err (.unexpectedChar 1 '?') ∧
    tokenize "?." = .ok [⟨.TOKEN_QUESTION_DOT, "?.", 1, 1⟩, ⟨.TOKEN_EOF, "", 1, 3⟩] ∧
    tokenize "??" = .ok [⟨.TOKEN_DOUBLE_QUESTION, "??", 1, 1⟩, ⟨.TOKEN_EOF, "", 1, 3⟩] := by
  refine ⟨fun l rest hd hr => scanToken_bang_err l hd hr,
    fun l rest hd hr => scanToken_tilde_err l hd hr,
    fun l rest hd hr1 hr2 => scanToken_question_err l hd hr1 hr2,
    ?_, ?_, by decide, by decide, by decide, by decide, by decide, by decide, by decide⟩
  · intro l rest hd
    refine ⟨_, scanToken_bang_eq l hd,
      ⟨.TOKEN_NEQ, String.mk (goSlice l.source l.start (l.current + 1 + 1)), l.line, l.startColumn⟩,
      ?_, rfl⟩
    show (Lexer.addToken
      ({ l with current := l.current + 1 + 1, column := l.column + 1 + 1 } : Lexer) .TOKEN_NEQ).tokens = _
    simp [Lexer.addToken, Lexer.addTokenValue]
  · intro l rest hd
    refine ⟨_, scanToken_tilde_eq l hd,
      ⟨.TOKEN_NEQ, String.mk (goSlice l.source l.start (l.current + 1 + 1)), l.line, l.startColumn⟩,
      ?_, rfl⟩
    show (Lexer.addToken
      ({ l with current := l.current + 1 + 1, column := l.column + 1 + 1 } : Lexer) .TOKEN_NEQ).tokens = _
    simp [Lexer.addToken, Lexer.addTokenValue]

theorem c6_digraph_witness :
    Lexer.scanToken (⟨['!'], [], 0, 0, 1, 1, 1⟩ : Lexer) =
      .err (.unexpectedChar (⟨['!'], [], 0, 0, 1, 1, 1⟩ : Lexer).line '!') :=
  c6_digraph_spec.1 (⟨['!'], [], 0, 0, 1, 1, 1⟩ : Lexer) [] rfl (by decide)

/-- Claim C7: when `--[` is followed by `=` signs that do not then reach a
second `[`, the comment falls back to single-line semantics: `--` hands the
scanner to `comment`, and `comment` consumes exactly the characters up to
(but not including) the next newline or end of input, leaving the token
list (and everything except cursor and column) unchanged and reporting no
error. -/
theorem c7_comment_fallback_spec :
    (∀ (l : Lexer) (rest : List Char), l.source.drop l.current = '-' :: '-' :: rest →
      l.scanToken = .ok (Lexer.comment
        ({ l with current := l.current + 1 + 1, column := l.column + 1 + 1 } : Lexer))) ∧
    (∀ (l : Lexer) (k : Nat) (rest : List Char),
      l.source.drop l.current = '[' :: (List.replicate k '=' ++ rest) →
      rest.head? ≠ some '=' → rest.head? ≠ some '[' →
      l.comment = { l with
        current := l.current + ((l.source.drop l.current).takeWhile notNl).length,
        column := l.column + ((l.source.drop l.current).takeWhile notNl).length }) :=
  ⟨fun l _ hd => scanToken_ddash l hd,
   fun l k rest hd h1 h2 => comment_fallback l k rest hd h1 h2⟩

theorem c7_comment_fallback_witness :
    Lexer.comment (⟨['-', '-', '[', '=', 'x'], [], 0, 2, 1, 3, 1⟩ : Lexer) =
      { (⟨['-', '-', '[', '=', 'x'], [], 0, 2, 1, 3, 1⟩ : Lexer) with
        current := (⟨['-', '-', '[', '=', 'x'], [], 0, 2, 1, 3, 1⟩ : Lexer).current +
          (((⟨['-', '-', '[', '=', 'x'], [], 0, 2, 1, 3, 1⟩ : Lexer).source.drop
            (⟨['-', '-', '[', '=', 'x'], [], 0, 2, 1, 3, 1⟩ : Lexer).current).takeWhile notNl).length,
        column := (⟨['-', '-', '[', '=', 'x'], [], 0, 2, 1, 3, 1⟩ : Lexer).column +
          (((⟨['-', '-', '[', '=', 'x'], [], 0, 2, 1, 3, 1⟩ : Lexer).source.drop
            (⟨['-', '-', '[', '=', 'x'], [], 0, 2, 1, 3, 1⟩ : Lexer).current).takeWhile notNl).length } :=
  c7_comment_fallback_spec.2 (⟨['-', '-', '[', '=', 'x'], [], 0, 2, 1, 3, 1⟩ : Lexer) 1 ['x']
    rfl (by decide) (by decide)

/-- Claim C8 (counterexample): with two input files where compiling the
first fails, the per-file loop of `handleCompile` stops at the first error
and never attempts the second file, refuting the claim that every expanded
file is attempted. -/
theorem c8_first_error_counterexample :
    handleCompileLoop (fun f => if f = "a" then .error "boom" else .ok ()) ["a", "b"] =
      (["a"], some "boom") ∧
    "b" ∉ (handleCompileLoop (fun f => if f = "a" then .error "boom" else .ok ()) ["a", "b"]).1 := by
  decide

/-- Claim C8 (amended): the compile loop is fail-fast.  If every file
compiles, all files are attempted in order; as soon as one file errors, the
loop stops, having attempted exactly the files up to and including the
failing one, and reports that file's error. -/
theorem c8_amended_first_error :
    (∀ (g : String → Except String Unit) (fs : List String),
      (∀ f ∈ fs, g f = .ok ()) → handleCompileLoop g fs = (fs, none)) ∧
    (∀ (g : String → Except String Unit) (pre : List String) (f : String)
      (fs : List String) (e : String),
      (∀ x ∈ pre, g x = .ok ()) → g f = .error e →
      handleCompileLoop g (pre ++ f :: fs) = (pre ++ [f], some e)) := by
  constructor
  · intro g fs h
    induction fs with
    | nil => rfl
    | cons f t ih =>
      rw [handleCompileLoop, h f (by simp)]
      simp only [ih (fun x hx => h x (by simp [hx]))]
  · intro g pre f fs e hpre hgf
    induction pre with
    | nil =>
      rw [List.nil_append, handleCompileLoop, hgf, List.nil_append]
    | cons p t ih =>
      rw [List.cons_append, handleCompileLoop, hpre p (by simp)]
      simp only [ih (fun x hx => hpre x (by simp [hx]))]
      rfl

theorem c8_first_error_witness :
    handleCompileLoop (fun f => if f = "a" then .error "boom" else .ok ())
      (["x"] ++ "a" :: ["b"]) = (["x"] ++ ["a"], some "boom") :=
  c8_amended_first_error.2 (fun f => if f = "a" then .error "boom" else .ok ())
    ["x"] "a" ["b"] "boom"
    (fun x hx => by rw [List.mem_singleton] at hx; subst hx; rfl) rfl

theorem tokenize_cases (source : String) :
    (∃ ts, tokenize source = .ok ts) ∨ (∃ e, tokenize source = .err e) ∨
      tokenize source = .panic := by
  rcases hl : Lexer.tokenizeLoop (source.data.length + 1) (NewLexer source) with l | e | _ | _
  · exact Or.inl ⟨l.tokens ++ [⟨.TOKEN_EOF, "", l.line, l.column⟩], by rw [tokenize, hl]⟩
  · exact Or.inr (Or.inl ⟨e, by rw [tokenize, hl]⟩)
  · exact Or.inr (Or.inr (by rw [tokenize, hl]))
  · exact absurd hl (tokenizeLoop_no_diverge _ _
      (by show source.data.length - 0 < source.data.length + 1; omega)
      (by show (0 : Nat) ≤ source.data.length; omega))

/-- Claim C9: every scanning step started inside the input strictly advances
the cursor (staying within bounds) and appends at most one token; newline,
whitespace and comment steps append none; consequently `tokenize` never
exhausts its fuel — on every finite input it returns a token list, an error
or the (C1) panic. -/
theorem c9_progress_spec :
    (∀ l : Lexer, l.current < l.source.length → l.start = l.current →
      ScanOkP l l.scanToken) ∧
    (∀ (l : Lexer) (rest : List Char), l.source.drop l.current = '\n' :: rest →
      ∃ l', l.scanToken = .ok l' ∧ l'.tokens = l.tokens ∧
        l'.current = l.current + 1 ∧ l'.line = l.line + 1) ∧
    (∀ (l : Lexer) (c : Char) (rest : List Char),
      c = ' ' ∨ c = '\r' ∨ c = '\t' → l.source.drop l.current = c :: rest →
      ∃ l', l.scanToken = .ok l' ∧ l'.tokens = l.tokens ∧ l'.current = l.current + 1) ∧
    (∀ (l : Lexer) (rest : List Char), l.source.drop l.current = '-' :: '-' :: rest →
      ∃ l', l.scanToken = .ok l' ∧ l'.tokens = l.tokens) ∧
    (∀ source : String, (∃ ts, tokenize source = .ok ts) ∨
      (∃ e, tokenize source = .err e) ∨ tokenize source = .panic) := by
  refine ⟨fun l hcur hst => scanToken_spec l hcur hst, ?_, ?_, ?_, tokenize_cases⟩
  · intro l rest hd
    exact ⟨_, scanToken_newline l hd, rfl, rfl, rfl⟩
  · intro l c rest hc hd
    rcases hc with rfl | rfl | rfl
    · exact ⟨_, scanToken_space l hd, rfl, rfl⟩
    · exact ⟨_, scanToken_cr l hd, rfl, rfl⟩
    · exact ⟨_, scanToken_tab l hd, rfl, rfl⟩
  · intro l rest hd
    refine ⟨_, scanToken_ddash l hd, ?_⟩
    exact (comment_inv _).tks.trans rfl

theorem c9_progress_witness :
    ScanOkP (⟨['x'], [], 0, 0, 1, 1, 1⟩ : Lexer)
      (Lexer.scanToken (⟨['x'], [], 0, 0, 1, 1, 1⟩ : Lexer)) :=
  c9_progress_spec.1 (⟨['x'], [], 0, 0, 1, 1, 1⟩ : Lexer) (by decide) rfl

/-- Claim C10: whenever `tokenize` succeeds, the returned token list is
non-empty, ends in a `TOKEN_EOF` token, contains no other `TOKEN_EOF`, and
contains no `TOKEN_NEWLINE` at all. -/
theorem c10_token_stream_spec :
    ∀ (source : String) (ts : List Token), tokenize source = .ok ts →
      ts ≠ [] ∧
      (∃ t, ts.getLast? = some t ∧ t.type = .TOKEN_EOF) ∧
      (∀ t ∈ ts.dropLast, t.type ≠ .TOKEN_EOF) ∧
      (∀ t ∈ ts, t.type ≠ .TOKEN_NEWLINE) := by
  intro src ts h
  rw [tokenize] at h
  rcases hl : Lexer.tokenizeLoop (src.data.length + 1) (NewLexer src) with l | e | _ | _
  · rw [hl] at h
    have h2 : (TokResult.ok (l.tokens ++ [⟨.TOKEN_EOF, "", l.line, l.column⟩]) : TokResult) =
        .ok ts := h
    obtain rfl := TokResult.ok.inj h2
    obtain ⟨hsrc2, ts0, htks, hprop⟩ := tokenizeLoop_ok _ _ _ hl
      (by show (0 : Nat) ≤ src.data.length; omega)
    have htks2 : l.tokens = ts0 := htks.trans (List.nil_append ts0)
    refine ⟨by simp, ⟨⟨.TOKEN_EOF, "", l.line, l.column⟩, List.getLast?_concat _, rfl⟩, ?_, ?_⟩
    · rw [List.dropLast_concat]
      intro t ht
      rw [htks2] at ht
      exact (hprop t ht).1
    · intro t ht
      rcases List.mem_append.1 ht with h1 | h1
      · rw [htks2] at h1
        exact (hprop t h1).2
      · rw [List.mem_singleton] at h1
        subst h1
        exact fun hcon => nomatch hcon
  · rw [hl] at h
    simp at h
  · rw [hl] at h
    simp at h
  · rw [hl] at h
    simp at h

theorem c10_token_stream_witness :
    ([⟨.TOKEN_EOF, "", 1, 1⟩] : List Token) ≠ [] ∧
    (∃ t, ([⟨.TOKEN_EOF, "", 1, 1⟩] : List Token).getLast? = some t ∧ t.type = .TOKEN_EOF) ∧
    (∀ t ∈ ([⟨.TOKEN_EOF, "", 1, 1⟩] : List Token).dropLast, t.type ≠ .TOKEN_EOF) ∧
    (∀ t ∈ ([⟨.TOKEN_EOF, "", 1, 1⟩] : List Token), t.type ≠ .TOKEN_NEWLINE) :=
  c10_token_stream_spec "" [⟨.TOKEN_EOF, "", 1, 1⟩] (by decide)
